import Mathlib

/-!
Verification of the `wt` worktree-manager core against its specification.

This file shallowly embeds the pure decision logic of the repository:
the tidy classification engine (`internal/cli/tidy.go`), the pull-request
aggregation pipeline and interruption handling (`runStatus`'s
`fetchPullRequestStatuses` / `markPRInterrupted`), the column-layout and
cell-truncation logic of the incremental renderer, the `kill` command's
per-worktree aggregation loop, and the process-list pruning used by the
process summaries.

Modelling conventions:
* Go `time.Time` values are Unix timestamps as `Nat` (seconds).
* Go `int` fields are `Int` (no overflow is relevant at these sizes).
* I/O performed by the Go code (git queries, `gh` calls, process signals)
  is represented by passing the fetched data in as explicit arguments;
  the embedded functions are the pure remainder of the source functions.
* Reason lists and labels are `String`s built exactly as the `fmt.Sprintf`
  calls in the source build them.
-/

namespace Wt

/-! ## Definitions: shallow embedding of the wt sources -/

/-- Character-list whitespace trim, modelling Go's `strings.TrimSpace`
(and Lean's `String.trim`) in a kernel-computable way. -/
def strTrim (s : String) : String :=
  String.mk (((s.data.dropWhile Char.isWhitespace).reverse.dropWhile
    Char.isWhitespace).reverse)

/-- `strings.ToLower` via simple case folding, kernel-computable. -/
def strToLower (s : String) : String :=
  String.mk (s.data.map Char.toLower)

/-- Replace every CRLF character pair by a bare newline
(`strings.ReplaceAll(msg, "\r\n", "\n")`). -/
def replaceCRLF : List Char → List Char
  | [] => []
  | '\r' :: '\n' :: rest => '\n' :: replaceCRLF rest
  | c :: rest => c :: replaceCRLF rest

/-- Replace every newline by "; " (`strings.ReplaceAll(msg, "\n", "; ")`). -/
def replaceNewlines : List Char → List Char
  | [] => []
  | '\n' :: rest => ';' :: ' ' :: replaceNewlines rest
  | c :: rest => c :: replaceNewlines rest

/-- `singleLineError` from `internal/cli` (part_000): normalizes an error
message by collapsing CRLF, trimming, and joining lines with "; ". -/
def singleLineError (msg : String) : String :=
  String.mk (replaceNewlines (strTrim (String.mk (replaceCRLF msg.data))).data)

/-- Case-insensitive string comparison, modelling Go's `strings.EqualFold`
(simple case folding approximated by `Char.toLower`). -/
def strEqualFold (a b : String) : Bool :=
  strToLower a == strToLower b

/-- Go's `filepath.Base`: empty path gives ".", trailing slashes are
stripped, the component after the final slash is returned, and an
all-slash path gives "/". -/
def filepathBase (p : String) : String :=
  if p = "" then "."
  else
    let chars := p.data
    let stripped := (chars.reverse.dropWhile (· = '/')).reverse
    if stripped = [] then "/"
    else
      let afterSlash := (stripped.reverse.takeWhile (· ≠ '/')).reverse
      String.mk afterSlash

/-- Go's `strings.Fields`: the whitespace-separated fields of a string. -/
def fieldsAux : List Char → List Char → List String
  | acc, [] => if acc = [] then [] else [String.mk acc.reverse]
  | acc, c :: cs =>
    if c.isWhitespace then
      if acc = [] then fieldsAux [] cs
      else String.mk acc.reverse :: fieldsAux [] cs
    else fieldsAux (c :: acc) cs

/-- Go's `strings.Fields` on a string. -/
def fieldsOf (s : String) : List String :=
  fieldsAux [] s.data

/-- `processCommandLabel` from `internal/cli/process_summary.go`: trim the
command, fall back to "process" when empty, otherwise take the first
whitespace-separated field and its path basename. -/
def processCommandLabel (cmd : String) : String :=
  let cmd := strTrim cmd
  if cmd = "" then "process"
  else
    match fieldsOf cmd with
    | [] => "process"
    | f :: _ => filepathBase f

/-- `ProcessInfo` from `internal/processes` (part_007): pid, parent pid,
command line and working directory of an enumerated process. -/
structure ProcessInfo where
  pid : Int
  ppid : Int
  command : String
  cwd : String
  deriving DecidableEq, Repr

/-- `pullRequestInfo` from `internal/cli/pr_summary.go`. -/
structure PullRequestInfo where
  number : Int
  state : String
  isDraft : Bool
  updatedAt : Nat
  url : String
  deriving DecidableEq, Repr

/-- `pullRequestInfo.Open` from `internal/cli/pr_summary.go`. -/
def PullRequestInfo.isOpen (pr : PullRequestInfo) : Bool :=
  strToLower pr.state == "open"

/-- `openPullRequests` from `internal/cli/pr_summary.go`. -/
def openPullRequests (prs : List PullRequestInfo) : List PullRequestInfo :=
  prs.filter (·.isOpen)

/-- `formatPRState` from `internal/cli/pr_summary.go`. -/
def formatPRState (pr : PullRequestInfo) : String :=
  let state := strToLower pr.state
  if pr.isDraft ∧ state = "open" then "draft" else state

/-- `formatSinglePR` from `internal/cli/pr_summary.go`. -/
def formatSinglePR (pr : PullRequestInfo) : String :=
  "#" ++ toString pr.number ++ " " ++ formatPRState pr

/-- `formatMultiplePRs` from `internal/cli/pr_summary.go`: lists at most
three PR numbers. -/
def formatMultiplePRs (prs : List PullRequestInfo) : String :=
  let nums := (prs.take 3).map (fun pr => "#" ++ toString pr.number)
  "PR " ++ String.intercalate ", " nums ++ " multiple"

/-- `hasPendingWork` from part_000. -/
def hasPendingWork (dirty hasStash : Bool) (uniqueAhead : Int) : Bool :=
  dirty || hasStash || uniqueAhead > 0

/-- `prContext` from `internal/cli/pr_summary.go`. -/
structure PrContext where
  hasPendingWork : Bool
  hasUniqueCommits : Bool
  deriving DecidableEq, Repr

/-- `prSummary` from `internal/cli/pr_summary.go`. -/
structure PrSummary where
  operation : String := ""
  column : String := ""
  reason : String := ""
  deriving DecidableEq, Repr

/-- Modelled from the spec: the tidy/status snapshot under verification
calls a two-argument `summarizePullRequestState(ctx, prs)` whose defining
file is not under `src/` (only the later three-argument variant in
`internal/cli/pr_summary.go` is). This follows that source with the
workflow parameter fixed to "PRs expected", matching spec §4.1's
unconditional "no PR" reason for unique commits without an open PR. -/
def summarizePullRequestState (ctx : PrContext) (prs : List PullRequestInfo) : PrSummary :=
  if !ctx.hasPendingWork then { column := "" }
  else
    match openPullRequests prs with
    | one :: more =>
      if more = [] then
        let text := "PR " ++ formatSinglePR one
        { operation := text, column := text }
      else
        let text := formatMultiplePRs (one :: more)
        { operation := text, column := text }
    | [] =>
      if !ctx.hasUniqueCommits then { column := "" }
      else
        match prs with
        | [] => { column := "No PR", reason := "No PR" }
        | pr :: _ =>
          let text := "PR #" ++ toString pr.number ++ " " ++ formatPRState pr
            ++ "; unpublished commits"
          { operation := text, column := text, reason := text }

/-- `tidyStage` from `internal/cli/tidy.go` (string enum). -/
inductive TidyStage where
  | scanning | ready | prompt | cleaning | cleaned | skipped | blocked | error
  deriving DecidableEq, Repr

/-- `tidyClassification` from `internal/cli/tidy.go`. -/
inductive TidyClassification where
  | blocked | safe | gray
  deriving DecidableEq, Repr

/-- `absInt` from `internal/cli/tidy.go`. -/
def absInt (v : Int) : Int := if v < 0 then -v else v

/-- `maxInt` from `internal/cli/tidy.go`. -/
def maxInt (a b : Int) : Int := if a > b then a else b

/-- `worktreeGitData` from `internal/cli/worktree_inspect.go`: the git
facts gathered for one worktree (the fact-provider output). -/
structure WorktreeGitData where
  branch : String
  dirty : Bool
  hasStash : Bool
  baseAhead : Int
  baseBehind : Int
  timestamp : Nat
  uniqueAhead : Int
  headHash : String
  hasRemoteBranch : Bool
  remoteMatchesHead : Bool
  mergedIntoDefault : Bool
  treeMatchesDefault : Bool
  deriving DecidableEq, Repr

/-- `tidyCandidate` from `internal/cli/tidy.go` (pure data fields). -/
structure TidyCandidate where
  worktreeName : String
  worktreePath : String
  branch : String := ""
  headHash : String := ""
  dirty : Bool := false
  hasStash : Bool := false
  isCurrent : Bool := false
  mergedIntoDefault : Bool := false
  treeMatchesDefault : Bool := false
  hasRemoteBranch : Bool := false
  remoteMatchesHead : Bool := false
  baseAhead : Int := 0
  baseBehind : Int := 0
  uniqueAhead : Int := 0
  lastActivity : Nat := 0
  prs : List PullRequestInfo := []
  blockReasons : List String := []
  grayReasons : List String := []
  extraGrayReasons : List String := []
  classification : TidyClassification := .blocked
  stage : TidyStage := .scanning
  sharedWith : List String := []
  divergenceThreshold : Int := 0
  staleCutoffDays : Int := 0
  defaultBranch : String := ""
  processes : List ProcessInfo := []
  deriving DecidableEq, Repr

/-- `tidyCandidate.hasPendingWork` from `internal/cli/tidy.go`. -/
def TidyCandidate.pendingWork (cand : TidyCandidate) : Bool :=
  hasPendingWork cand.dirty cand.hasStash cand.uniqueAhead

/-- Days-old computation from `deriveClassification`:
`int(now.Sub(cand.LastActivity).Hours() / 24)`, i.e. the whole number of
days between the two timestamps truncated toward zero (with `Nat`
timestamps the negative case truncates to 0, which Go likewise never
reports as exceeding a positive threshold). -/
def daysOldOf (now lastActivity : Nat) : Int :=
  ((now - lastActivity) / 86400 : Nat)

/-- The "commits not merged" gray reason string built in
`deriveClassification`. -/
def commitsNotMergedReason (defaultBranch : String) : String :=
  "commits not merged into " ++ defaultBranch

/-- The per-open-PR gray reason string built in `deriveClassification`. -/
def openPRReason (pr : PullRequestInfo) : String :=
  "PR #" ++ toString pr.number ++ " " ++ formatPRState pr

/-- The divergence gray reason string built in `deriveClassification`. -/
def divergedReason (baseAhead baseBehind : Int) (defaultBranch : String) : String :=
  "diverged +" ++ toString baseAhead ++ "/-" ++ toString baseBehind
    ++ " from " ++ defaultBranch

/-- The staleness gray reason string built in `deriveClassification`. -/
def staleReason (daysOld : Int) : String :=
  "stale for " ++ toString daysOld ++ " days"

/-- The "multiple PRs" gray reason string built in `deriveClassification`. -/
def multiplePRsReason (prs : List PullRequestInfo) : String :=
  let nums := (prs.take 3).map (fun pr => "#" ++ toString pr.number)
  "multiple PRs (" ++ String.intercalate ", " nums ++ ")"

/-- `deriveClassification` from `internal/cli/tidy.go` lines 423-491,
as a pure state transformer on the candidate. Note the Go quirk mirrored
here: `cand.GrayReasons` is assigned before the (dead) "manual review"
append, while the final classification looks at the appended list. -/
def deriveClassification (cand : TidyCandidate) (now : Nat) : TidyCandidate :=
  if cand.blockReasons ≠ [] then
    { cand with
      classification := .blocked
      stage := if cand.stage ≠ .cleaning ∧ cand.stage ≠ .cleaned then .blocked else cand.stage
      grayReasons := [] }
  else
    let reasons := cand.extraGrayReasons
    let hasUniqueCommits := cand.uniqueAhead > 0
    let openPRs := openPullRequests cand.prs
    let needsCleanupDecision := hasUniqueCommits
    let reasons := reasons ++
      (if needsCleanupDecision then
        [commitsNotMergedReason cand.defaultBranch]
        ++ (if openPRs.length > 0 then
              openPRs.map openPRReason
            else
              let summary := summarizePullRequestState
                ⟨cand.pendingWork, cand.uniqueAhead > 0⟩ cand.prs
              if summary.reason ≠ "" then [summary.reason] else [])
        ++ (if cand.divergenceThreshold > 0 ∧
              maxInt (absInt cand.baseAhead) (absInt cand.baseBehind) > cand.divergenceThreshold
            then [divergedReason cand.baseAhead cand.baseBehind cand.defaultBranch] else [])
        ++ (if cand.staleCutoffDays > 0 ∧ daysOldOf now cand.lastActivity > cand.staleCutoffDays
            then [staleReason (daysOldOf now cand.lastActivity)] else [])
      else [])
    let reasons := reasons ++
      (if cand.prs.length > 1 then [multiplePRsReason cand.prs] else [])
    let grayReasons := reasons
    let reasons := if needsCleanupDecision ∧ reasons.length = 0
      then reasons ++ ["manual review"] else reasons
    if reasons.length = 0 then
      { cand with grayReasons, classification := .safe, stage := .ready }
    else
      { cand with grayReasons, classification := .gray, stage := .prompt }

/-- Substring search over character lists (Go's `strings.Contains`). -/
def containsSub (needle : List Char) : List Char → Bool
  | [] => needle.isEmpty
  | c :: rest => needle.isPrefixOf (c :: rest) || containsSub needle rest

/-- Go's `strings.Contains`. -/
def containsSubstr (s sub : String) : Bool :=
  containsSub sub.data s.data

/-- Go's `strings.Trim(s, ":")`. -/
def trimColons (s : String) : String :=
  String.mk (((s.data.dropWhile (· = ':')).reverse.dropWhile (· = ':')).reverse)

/-- `extractWorktreeMetadataPath` from `internal/cli/worktree_health.go`. -/
def extractWorktreeMetadataPath (msg : String) : String :=
  match ((msg.split Char.isWhitespace).filter (· ≠ "")).find?
      (fun f => containsSubstr f ".git/worktrees/") with
  | some f => trimColons f
  | none => ""

/-- `friendlyWorktreeGitError` from `internal/cli/worktree_health.go`,
returning `none` where the Go function reports `ok = false` (errors are
already strings in this embedding, so the nil-error case is absent). -/
def friendlyWorktreeGitError (worktreeName : String) (err : String) : Option String :=
  let msg := singleLineError err
  if !containsSubstr (strToLower msg) "not a git repository" then none
  else if !containsSubstr msg ".git/worktrees/" then none
  else
    let missing := extractWorktreeMetadataPath msg
    let detail := if missing ≠ "" then " (missing " ++ missing ++ ")" else ""
    some ("broken git metadata for " ++ worktreeName ++ detail
      ++ "; run `git worktree prune` in your main worktree or delete the directory")

/-- `isWithin` from `internal/cli/helpers.go`, modelled lexically for
clean absolute paths: `filepath.Rel(parent, child)` does not start with
".." exactly when `child` equals `parent` or extends it past a path
separator. -/
def isWithin (child parent : String) : Bool :=
  child == parent || (parent ++ "/").data.isPrefixOf child.data

/-- `blockReasonCurrentWorktree` from `internal/cli/tidy.go`. -/
def blockReasonCurrentWorktree : String := "currently inside this worktree"

/-- The block-reason message built by `markTidyGitError`
(`internal/cli/tidy.go` lines 338-342): the friendly broken-metadata
message when recognised, otherwise "git error: " plus the flattened
error text. -/
def gitErrorReason (worktreeName err : String) : String :=
  match friendlyWorktreeGitError worktreeName err with
  | some friendly => friendly
  | none => "git error: " ++ singleLineError err

/-- `markTidyGitError` from `internal/cli/tidy.go` (the
`currentTimeOverride()` call is the `now` argument). -/
def markTidyGitError (cand : TidyCandidate) (err : String) (now : Nat) : TidyCandidate :=
  let msg := gitErrorReason cand.worktreeName err
  let cand := { cand with blockReasons := cand.blockReasons ++ [msg], stage := .blocked }
  let cand := if cand.branch = "" then { cand with branch := "(unknown)" } else cand
  if cand.lastActivity = 0 then { cand with lastActivity := now } else cand

/-- `inspectWorktreeBase` from `internal/cli/tidy.go` lines 282-336.
The `gatherWorktreeGitData` call is the `data` argument (`Except` carries
the git error message); config fields are passed explicitly. -/
def inspectWorktreeBase (defaultBranch : String) (divergenceCommits staleDays : Int)
    (wtName wtPath wd : String) (data : Except String WorktreeGitData) (now : Nat) :
    TidyCandidate :=
  match data with
  | .error e =>
    markTidyGitError
      { worktreeName := wtName, worktreePath := wtPath, stage := .scanning,
        defaultBranch := defaultBranch, branch := "(unknown)" } e now
  | .ok d =>
    let isCur := isWithin wd wtPath
    let blockReasons :=
      (if d.branch = "" ∨ d.branch = "HEAD" then ["detached HEAD"] else [])
      ++ (if d.branch = defaultBranch then
            ["branch is the default (" ++ defaultBranch ++ ")"] else [])
      ++ (if isCur then [blockReasonCurrentWorktree] else [])
      ++ (if d.dirty then ["worktree has uncommitted changes"] else [])
      ++ (if d.hasStash then ["stash entries reference this branch"] else [])
    { worktreeName := wtName, worktreePath := wtPath,
      defaultBranch := defaultBranch, branch := d.branch,
      isCurrent := isCur, dirty := d.dirty, hasStash := d.hasStash,
      baseAhead := d.baseAhead, baseBehind := d.baseBehind,
      lastActivity := d.timestamp, headHash := d.headHash,
      mergedIntoDefault := d.mergedIntoDefault, treeMatchesDefault := d.treeMatchesDefault,
      uniqueAhead := d.uniqueAhead, hasRemoteBranch := d.hasRemoteBranch,
      remoteMatchesHead := d.remoteMatchesHead,
      divergenceThreshold := divergenceCommits, staleCutoffDays := staleDays,
      blockReasons := blockReasons,
      stage := if blockReasons ≠ [] then .blocked else .scanning }

/-- Byte-order string comparison (Go's `<` on strings): UTF-8 byte order
coincides with code-point order. -/
def strLeGo : List Char → List Char → Bool
  | [], _ => true
  | _ :: _, [] => false
  | x :: xs, y :: ys => if x = y then strLeGo xs ys else decide (x.toNat < y.toNat)

/-- Insertion into an ascending list, for `sort.Strings`. -/
def insertSorted (x : String) : List String → List String
  | [] => [x]
  | y :: ys => if strLeGo x.data y.data then x :: y :: ys else y :: insertSorted x ys

/-- `sort.Strings`: ascending byte-order sort. -/
def sortStrings (names : List String) : List String :=
  names.foldr insertSorted []

/-- `filterOtherWorktrees` from `internal/cli/tidy.go`. -/
def filterOtherWorktrees (names : List String) (current : String) : List String :=
  sortStrings (names.filter (· ≠ current))

/-- One worktree's inputs to `collectTidyCandidates`: name, path, and the
result of its git-facts gathering. -/
structure WorktreeInput where
  name : String
  path : String
  data : Except String WorktreeGitData
  deriving Repr

/-- The shared-branch block reason appended by `collectTidyCandidates`. -/
def sharedBranchReason (shared : List String) : String :=
  "branch also used by " ++ String.intercalate ", " shared

/-- Second pass of `collectTidyCandidates` (lines 272-277): attach the
`sharedWith` list computed from the branch-usage map and append the
shared-branch block reason when it is non-empty. -/
def attachSharedBranch (base : List TidyCandidate) (cand : TidyCandidate) : TidyCandidate :=
  let shared := filterOtherWorktrees
    ((base.filter (fun c => c.branch = cand.branch)).map (·.worktreeName)) cand.worktreeName
  let cand := { cand with sharedWith := shared }
  if shared ≠ [] then
    { cand with blockReasons := cand.blockReasons ++ [sharedBranchReason shared] }
  else cand

/-- `collectTidyCandidates` from `internal/cli/tidy.go` lines 247-280:
skip the default worktree, inspect each remaining worktree, then mark
branches shared between surviving worktrees. -/
def collectTidyCandidates (defaultWorktree defaultBranch : String)
    (divergenceCommits staleDays : Int) (wd : String) (now : Nat)
    (worktrees : List WorktreeInput) : List TidyCandidate :=
  let base := (worktrees.filter (fun w => w.name ≠ defaultWorktree)).map
    (fun w => inspectWorktreeBase defaultBranch divergenceCommits staleDays
      w.name w.path wd w.data now)
  base.map (attachSharedBranch base)

/-- `prLoadingLabel` from part_000. -/
def prLoadingLabel : String := "PR: loading..."

/-- Modelled from the spec: the constant `prInterruptedLabel` is used by
part_000 but its defining file is not under `src/`; the spec requires an
explicit "interrupted" label, and the companion CI label is
"CI: interrupted" (part_014's test) with the combined rendering
"PR/CI: interrupted" (part_000), fixing the value "PR: interrupted". -/
def prInterruptedLabel : String := "PR: interrupted"

/-- The fields of `worktreeStatus` (part_000) that the PR pipeline reads
and writes. -/
structure WtStatus where
  name : String
  path : String := ""
  branch : String := ""
  hasPendingWork : Bool := false
  uniqueAhead : Int := 0
  prStatus : String := ""
  pullRequests : List PullRequestInfo := []
  deriving DecidableEq, Repr

/-- `markPRInterrupted` from part_000 lines 771-789: any status whose
trimmed PR label is empty, the loading placeholder, or already the
interrupted label is relabelled `prInterruptedLabel`; every other status
is untouched. (The `onUpdate` repaint callback has no data effect.) -/
def markPRInterrupted (statuses : List WtStatus) : List WtStatus :=
  statuses.map (fun st =>
    let pr := strTrim st.prStatus
    if pr = "" ∨ strEqualFold pr prLoadingLabel ∨ strEqualFold pr prInterruptedLabel then
      { st with prStatus := prInterruptedLabel }
    else st)

/-- The result delivered on the completion channel for one status:
either the fetched PR list or a `gh` error message. -/
abbrev PRResult := Except String (List PullRequestInfo)

/-- The priority order built at the top of `fetchPullRequestStatuses`
(part_000 lines 680-697), as indexes into the status list: the project's
default worktree first (first match only), then every remaining status in
original order. -/
def orderedIdx (statuses : List WtStatus) (defaultWorktree : String) : List Nat :=
  (if defaultWorktree ≠ "" then
    match statuses.findIdx? (fun s => s.name = defaultWorktree) with
    | some i => [i]
    | none => []
  else [])
  ++ ((statuses.enum.filter
        (fun p => ¬(defaultWorktree ≠ "" ∧ p.2.name = defaultWorktree))).map (·.1))

/-- Applying one PR result to the status at `idx` (part_000 lines
745-765): an error sets the explicit unavailable label; a success stores
the PR list and the summary column text. -/
def applyPRResult (sts : List WtStatus) (idx : Nat) (res : PRResult) : List WtStatus :=
  match sts.get? idx with
  | none => sts
  | some st =>
    match res with
    | .error e =>
      let msg := singleLineError e
      let msg := if msg = "" then "error" else msg
      sts.set idx { st with prStatus := "PR: unavailable (" ++ msg ++ ")" }
    | .ok prs =>
      let summary := summarizePullRequestState ⟨st.hasPendingWork, st.uniqueAhead > 0⟩ prs
      sts.set idx { st with pullRequests := prs, prStatus := summary.column }

/-- The pending-result buffer (`pending` map in part_000), as an
association list with overwrite-on-insert map semantics. -/
def lookupPending (p : List (Nat × PRResult)) (i : Nat) : Option PRResult :=
  (p.find? (fun e => e.1 = i)).map (·.2)

/-- Map-style insert: the new binding shadows (replaces) any old one. -/
def insertPending (p : List (Nat × PRResult)) (a : Nat × PRResult) : List (Nat × PRResult) :=
  a :: p.filter (fun e => e.1 ≠ a.1)

/-- `delete(pending, status)`. -/
def erasePending (p : List (Nat × PRResult)) (i : Nat) : List (Nat × PRResult) :=
  p.filter (fun e => e.1 ≠ i)

/-- The state of the fan-in loop of `fetchPullRequestStatuses`:
the (mutated) status list, the pending buffer, the not-yet-applied
portion of the priority order (`ordered[next:]`), the application log
(indexes in application order), and the aggregated per-status failures. -/
structure PRFetchState where
  statuses : List WtStatus
  pending : List (Nat × PRResult)
  rest : List Nat
  log : List Nat
  failed : List String
  deriving Repr

/-- The inner `for next < len(ordered)` cursor loop of
`fetchPullRequestStatuses` (part_000 lines 736-766): apply pending
results in priority order until the result at the cursor is missing. -/
def drainPR : List WtStatus → List (Nat × PRResult) → List Nat → List Nat → List String →
    PRFetchState
  | sts, pending, [], log, failed => ⟨sts, pending, [], log, failed⟩
  | sts, pending, i :: rest, log, failed =>
    match lookupPending pending i with
    | none => ⟨sts, pending, i :: rest, log, failed⟩
    | some res =>
      let failed := match res with
        | .error e =>
          failed ++ [((sts.get? i).elim "" (·.name)) ++ ": " ++ singleLineError e]
        | .ok _ => failed
      drainPR (applyPRResult sts i res) (erasePending pending i) rest (log ++ [i]) failed

/-- The event loop of `fetchPullRequestStatuses`: each arrival from the
completion channel is buffered, then the cursor loop drains whatever has
become due. -/
def processPRArrivals : List WtStatus → List (Nat × PRResult) → List Nat → List Nat →
    List String → List (Nat × PRResult) → PRFetchState
  | sts, pending, rest, log, failed, [] => ⟨sts, pending, rest, log, failed⟩
  | sts, pending, rest, log, failed, a :: arrivals =>
    let st := drainPR sts (insertPending pending a) rest log failed
    processPRArrivals st.statuses st.pending st.rest st.log st.failed arrivals

/-- `fetchPullRequestStatuses` from part_000 lines 669-769, as a pure
function of the arrival sequence (the order the network returned
results): run the fan-in loop from the initial empty buffer over the
priority order. -/
def fetchPullRequestStatuses (statuses : List WtStatus) (defaultWorktree : String)
    (arrivals : List (Nat × PRResult)) : PRFetchState :=
  processPRArrivals statuses [] (orderedIdx statuses defaultWorktree) [] [] arrivals

/-- The cancellation path of `fetchPullRequestStatuses` (part_000 lines
722-728): when the context is cancelled after some arrivals were applied,
`markPRInterrupted` runs over the statuses and the loop returns. -/
def fetchPullRequestStatusesCancelled (statuses : List WtStatus) (defaultWorktree : String)
    (arrivals : List (Nat × PRResult)) : PRFetchState :=
  let st := fetchPullRequestStatuses statuses defaultWorktree arrivals
  { st with statuses := markPRInterrupted st.statuses }

/-- A candidate satisfying every hypothesis of claim C1 as stated —
no block reasons, no extra gray reasons, `uniqueAhead = 0`, not dirty,
no stash, no processes — but carrying two (merged/closed) pull requests. -/
def claim1Cand : TidyCandidate :=
  { worktreeName := "feature", worktreePath := "/proj/feature"
    branch := "feature"
    uniqueAhead := 0
    prs := [⟨1, "MERGED", false, 0, ""⟩, ⟨2, "CLOSED", false, 0, ""⟩] }

/-- A candidate whose tree is byte-identical to the default branch's tree
(`treeMatchesDefault = true`, squash-merged so `mergedIntoDefault =
false`) while `git cherry` still reports one unique commit. -/
def claim3Cand : TidyCandidate :=
  { worktreeName := "squashed", worktreePath := "/proj/squashed"
    branch := "squashed"
    uniqueAhead := 1
    mergedIntoDefault := false
    treeMatchesDefault := true
    defaultBranch := "main" }

/-- A gray candidate at both boundary values: divergence equal to the
threshold and staleness equal to the cutoff. -/
def claim6Cand : TidyCandidate :=
  { worktreeName := "edge", worktreePath := "/proj/edge"
    branch := "edge"
    uniqueAhead := 5
    baseAhead := 20, baseBehind := 0
    divergenceThreshold := 20
    staleCutoffDays := 14
    lastActivity := 0
    defaultBranch := "main" }

/-- A three-status dashboard whose default worktree sorts last. -/
def claim5Sts : List WtStatus :=
  [{ name := "beta", prStatus := prLoadingLabel, hasPendingWork := true, uniqueAhead := 1 },
   { name := "alpha", prStatus := prLoadingLabel },
   { name := "main", prStatus := prLoadingLabel }]

/-- An arrival order scrambled relative to the priority order `[2, 0, 1]`. -/
def claim5Arr : List (Nat × PRResult) :=
  [(1, .ok []), (0, .error "gh exploded"), (2, .ok [])]

/-- A one-status dashboard whose worktree has no pending work, so its
applied PR label is the empty summary column. -/
def claim4Sts : List WtStatus :=
  [{ name := "main", path := "/p/main", branch := "main",
     hasPendingWork := false, uniqueAhead := 0, prStatus := prLoadingLabel }]

/-- The single (successful, empty) PR result for `claim4Sts`. -/
def claim4Arr : List (Nat × PRResult) := [(0, .ok [])]

/-- The three measured column widths of one status row (`statusColumnCount
= 3`): identity, recency, and detail. These are the
`runewidth.StringWidth` measurements of `statusFields`; the layout logic
consumes only these numbers. -/
structure Widths3 where
  c0 : Nat
  c1 : Nat
  c2 : Nat
  deriving DecidableEq, Repr

/-- Index into a `Widths3` (the Go `widths[idx]`). -/
def w3get (w : Widths3) : Fin 3 → Nat
  | ⟨0, _⟩ => w.c0
  | ⟨1, _⟩ => w.c1
  | ⟨2, _⟩ => w.c2

/-- Decrement one column (the Go `widths[idx]--`). -/
def w3dec (w : Widths3) : Fin 3 → Widths3
  | ⟨0, _⟩ => { w with c0 := w.c0 - 1 }
  | ⟨1, _⟩ => { w with c1 := w.c1 - 1 }
  | ⟨2, _⟩ => { w with c2 := w.c2 - 1 }

/-- `columnLayout.totalWidth`: the three widths plus two three-character
column gaps (`columnGapWidth = 3`). -/
def w3total (w : Widths3) : Nat :=
  w.c0 + w.c1 + w.c2 + 2 * 3

/-- `shrinkPriority` from part_000: detail first, then identity, then
recency. -/
def shrinkPriority : List (Fin 3) := [2, 0, 1]

/-- `columnLayout` (the fields the layout computation produces). -/
structure ColumnLayout where
  widths : Widths3
  prDisplayWidth : Nat
  deriving DecidableEq, Repr

/-- One pass of the inner `for _, idx := range shrinkPriority` loop of
`shrinkWidths`: decrement each still-shrinkable column once, stopping
early when the excess reaches zero; returns the new widths, the remaining
excess, and whether anything shrank. -/
def shrinkPassAux (mins : Widths3) : List (Fin 3) → Widths3 → Nat → Bool →
    Widths3 × Nat × Bool
  | [], w, e, s => (w, e, s)
  | idx :: rest, w, e, s =>
    if w3get mins idx < w3get w idx then
      let w' := w3dec w idx
      let e' := e - 1
      if e' = 0 then (w', 0, true)
      else shrinkPassAux mins rest w' e' true
    else shrinkPassAux mins rest w e s

/-- The outer `for excess > 0` loop of `shrinkWidths`. The fuel argument
is a termination device only: it is initialized to the excess, which
strictly decreases on every continuing iteration, so the fuel never runs
out before the Go loop would exit. -/
def shrinkIter (mins : Widths3) : Nat → Widths3 → Nat → Widths3
  | 0, w, _ => w
  | fuel + 1, w, e =>
    if e = 0 then w
    else
      match shrinkPassAux mins shrinkPriority w e false with
      | (w', e', shrunk) => if shrunk then shrinkIter mins fuel w' e' else w

/-- `shrinkWidths` from part_000 lines 328-351. -/
def shrinkWidths (w mins : Widths3) (maxWidth : Nat) : Widths3 :=
  if w3total w ≤ maxWidth then w
  else shrinkIter mins (w3total w - maxWidth) w (w3total w - maxWidth)

/-- `defaultProcessSummaryLimit` from `internal/cli/process_summary.go`. -/
def defaultProcessSummaryLimit : Nat := 80

/-- The per-column maxima of the measured rows (the first loop of
`buildColumnLayout`). -/
def measureRows (rows : List Widths3) : Widths3 :=
  rows.foldl (fun acc r => ⟨max acc.c0 r.c0, max acc.c1 r.c1, max acc.c2 r.c2⟩) ⟨0, 0, 0⟩

/-- The effective column minimums of `buildColumnLayout`: the static
`columnMinWidths = [24, 16, 24]`, with the identity column's minimum
raised to its largest measured content width. -/
def effectiveMins (rows : List Widths3) : Widths3 :=
  ⟨max 24 (measureRows rows).c0, 16, 24⟩

/-- `buildColumnLayout` from part_000 lines 281-326, over the measured
row widths: take per-column maxima, clamp to the effective minimums, and
— when a terminal width is known — shrink to fit and grow the last column
to absorb any remaining surplus. -/
def buildColumnLayout (rows : List Widths3) (maxWidth : Nat) : ColumnLayout :=
  let measured := measureRows rows
  let mins := effectiveMins rows
  let prBaseWidth := measured.c2
  let widths : Widths3 :=
    ⟨max measured.c0 mins.c0, max measured.c1 mins.c1, max measured.c2 mins.c2⟩
  if 0 < maxWidth then
    let widths := shrinkWidths widths mins maxWidth
    let total := w3total widths
    let widths := if total < maxWidth then
        { widths with c2 := widths.c2 + (maxWidth - total) } else widths
    { widths := widths, prDisplayWidth := widths.c2 }
  else
    let prBaseWidth := if prBaseWidth = 0 then widths.c2 else prBaseWidth
    let prBaseWidth := if prBaseWidth < defaultProcessSummaryLimit then
        defaultProcessSummaryLimit else prBaseWidth
    let widths := if widths.c2 < prBaseWidth then { widths with c2 := prBaseWidth } else widths
    { widths := widths, prDisplayWidth := prBaseWidth }

/-- Unicode-aware rendered width: the sum of the per-glyph cell widths
under the width table `cw` (modelling `runewidth.StringWidth`); a string
is its glyph (rune) list. -/
def strWidth (cw : Char → Nat) (s : List Char) : Nat :=
  (s.map cw).sum

/-- The longest prefix whose cumulative width fits, stopping at the first
glyph that does not fit (the scanning loop of `runewidth.Truncate`). -/
def takeWidth (cw : Char → Nat) : List Char → Nat → List Char
  | [], _ => []
  | c :: rest, w => if cw c ≤ w then c :: takeWidth cw rest (w - cw c) else []

/-- `runewidth.Truncate(s, w, "")`: the string itself when it already
fits, else the widest glyph-boundary prefix. -/
def truncateRunes (cw : Char → Nat) (s : List Char) (w : Nat) : List Char :=
  if strWidth cw s ≤ w then s else takeWidth cw s w

/-- `padOrTrim` from part_000 lines 469-496: pad a narrow cell with
spaces, pass an exact-width cell through, and replace an over-width
cell's tail with an ellipsis — "…)" when the cell ends in a closing
parenthesis and at least two cells are available. -/
def padOrTrim (cw : Char → Nat) (text : List Char) (width : Nat) : List Char :=
  if width = 0 then []
  else
    let textWidth := strWidth cw text
    if textWidth < width then text ++ List.replicate (width - textWidth) ' '
    else if textWidth = width then text
    else
      let indicator := if text.getLast? = some ')' ∧ 1 < width then ['…', ')'] else ['…']
      let indicatorWidth := strWidth cw indicator
      if width ≤ indicatorWidth then truncateRunes cw indicator width
      else
        let keepWidth := width - indicatorWidth
        let trimmed := truncateRunes cw text keepWidth
        let result := trimmed ++ indicator
        let resultWidth := strWidth cw result
        if resultWidth < width then result ++ List.replicate (width - resultWidth) ' '
        else result

/-- First pass of `pruneProcessList`: drop the wt CLI's own process and
its parent process by pid (`currentProcessPID` / `parentProcessPID` are
the `cur` / `par` arguments). -/
def pruneFiltered (cur par : Int) (procs : List ProcessInfo) : List ProcessInfo :=
  procs.filter (fun p => p.pid ≠ cur ∧ p.pid ≠ par)

/-- The `pidIndex` map of `pruneProcessList`: index of the last entry
with the given pid (Go map assignment overwrites, so later indexes win). -/
def pidIndexOf (l : List ProcessInfo) (pid : Int) : Option Nat :=
  ((l.enum.filter (fun e => e.2.pid = pid)).getLast?).map (·.1)

/-- The keep-condition of `pruneProcessList`: a process is dropped when
its parent pid resolves (via `pidIndex`) to a process in the same
filtered list whose command label matches case-insensitively. -/
def pruneKeep (filtered : List ProcessInfo) (p : ProcessInfo) : Bool :=
  match pidIndexOf filtered p.ppid with
  | none => true
  | some j =>
    match filtered.get? j with
    | none => true
    | some parent =>
      ¬ strEqualFold (processCommandLabel parent.command) (processCommandLabel p.command)

/-- `pruneProcessList` from part_023 lines 126-165. -/
def pruneProcessList (cur par : Int) (procs : List ProcessInfo) : List ProcessInfo :=
  if procs = [] then procs
  else
    let filtered := pruneFiltered cur par procs
    if filtered = [] then filtered
    else filtered.filter (pruneKeep filtered)

/-- `joinPIDs` from `internal/cli/process_summary.go`. -/
def joinPIDs (pids : List Int) : String :=
  String.intercalate ", " (pids.map toString)

/-- Strict byte-order comparison of command labels (Go string `<`;
UTF-8 byte order coincides with code-point order). -/
def strLtGo : List Char → List Char → Bool
  | [], [] => false
  | [], _ :: _ => true
  | _ :: _, [] => false
  | x :: xs, y :: ys => if x = y then strLtGo xs ys else decide (x.toNat < y.toNat)

/-- The `sort.Slice` comparator of `summarizeProcesses`: command label
first, pid as tie-break. -/
def procLess (a b : ProcessInfo) : Bool :=
  let ca := processCommandLabel a.command
  let cb := processCommandLabel b.command
  if ca = cb then decide (a.pid < b.pid) else strLtGo ca.data cb.data

/-- Insertion step of the sort used to model `sort.Slice`. -/
def insertProc (x : ProcessInfo) : List ProcessInfo → List ProcessInfo
  | [] => [x]
  | y :: ys => if procLess x y then x :: y :: ys else y :: insertProc x ys

/-- `sort.Slice(sorted, ...)` of `summarizeProcesses`: sorting by
label-then-pid (any correct sort produces this order when no two
processes share label and pid). -/
def sortProcs (l : List ProcessInfo) : List ProcessInfo :=
  l.foldr insertProc []

/-- The adjacent grouping loop of `summarizeProcesses`: consecutive
processes with the same command label share one entry. -/
def groupProcs : List ProcessInfo → List (String × List Int)
  | [] => []
  | p :: rest =>
    match groupProcs rest with
    | [] => [(processCommandLabel p.command, [p.pid])]
    | (l, pids) :: gs =>
      if processCommandLabel p.command = l then (l, p.pid :: pids) :: gs
      else (processCommandLabel p.command, [p.pid]) :: (l, pids) :: gs

/-- Byte length of a string (Go `len`). -/
def byteLen (s : String) : Nat :=
  (s.data.map Char.utf8Size).sum

/-- The width-limited builder loop of `summarizeProcesses`: append
entries (comma-separated) while forced (fewer than the required minimum
shown) or while the projected byte length stays within the limit;
returns the built string and the number of entries shown. -/
def summarizeLoop (limit : Int) (required : Nat) :
    List String → String → Nat → String × Nat
  | [], b, shown => (b, shown)
  | entry :: rest, b, shown =>
    let sep := if 0 < shown then ", " else ""
    let projected := byteLen b + byteLen sep + byteLen entry
    let forced := shown < required
    if ¬forced ∧ 0 < limit ∧ limit < (projected : Int) then (b, shown)
    else summarizeLoop limit required rest (b ++ sep ++ entry) (shown + 1)

/-- `summarizeProcesses` from `internal/cli/process_summary.go` lines
17-96 (`minProcessSummaryEntries = 3`). -/
def summarizeProcesses (cur par : Int) (procs : List ProcessInfo) (limit : Int) : String :=
  let procs := pruneProcessList cur par procs
  if procs = [] then "-"
  else
    let limit := if limit ≤ 0 then (defaultProcessSummaryLimit : Int) else limit
    let sorted := sortProcs procs
    let entries := (groupProcs sorted).map (fun g => g.1 ++ " (" ++ joinPIDs g.2 ++ ")")
    let required := if entries.length < 3 then entries.length else 3
    let bs := summarizeLoop limit required entries "" 0
    let remaining := entries.length - bs.2
    if 0 < remaining then
      let sep := if 0 < bs.2 then ", " else ""
      bs.1 ++ sep ++ "+ " ++ toString remaining ++ " more"
    else bs.1

/-- `terminateWorktreeProcesses` from `internal/cli/process_kill.go`
lines 117-139: the per-process signal outcomes are paired with the
processes, and the post-signal poll outcome (`waitForProcessExit`) is the
`poll` argument — the list of processes still present at the deadline, or
an error (context cancelled, detection error, or unsupported platform). -/
def terminateWorktreeProcesses (cur par : Int) (timeoutLabel : String)
    (procs : List (ProcessInfo × Option String))
    (poll : Except String (List ProcessInfo)) : Option String :=
  let errs := procs.filterMap (fun pe => pe.2.map (fun e =>
    processCommandLabel pe.1.command ++ " (" ++ toString pe.1.pid ++ "): " ++ e))
  if errs ≠ [] then some (String.intercalate "\n" errs)
  else
    match poll with
    | .error e => some e
    | .ok remaining =>
      if remaining ≠ [] then
        let summary := summarizeProcesses cur par remaining defaultProcessSummaryLimit
        let summary := if summary = "-" then
            toString remaining.length ++ " process(es)" else summary
        some ("processes still running after " ++ timeoutLabel ++ ": " ++ summary)
      else none

/-- One target of the `kill` command: the worktree name, its detected
processes (paired with each process's signal outcome), and the poll
outcome after signalling. -/
structure KillCase where
  name : String
  procs : List (ProcessInfo × Option String)
  poll : Except String (List ProcessInfo)

/-- The per-worktree loop of `runKill` (part_012 lines 79-111, dry-run
false): skip targets with nothing to kill, attempt every remaining target
regardless of earlier failures, and collect (attempted names, aggregated
failures) in order. -/
def runKill (cur par : Int) (timeoutLabel : String) : List KillCase → List String × List String
  | [] => ([], [])
  | t :: rest =>
    if t.procs = [] then runKill cur par timeoutLabel rest
    else
      let res := terminateWorktreeProcesses cur par timeoutLabel t.procs t.poll
      let tail := runKill cur par timeoutLabel rest
      match res with
      | some e => (t.name :: tail.1, (t.name ++ ": " ++ e) :: tail.2)
      | none => (t.name :: tail.1, tail.2)

/-- The command's returned error (`errors.Join` of the per-target
failures): `none` exactly when no target failed; a non-`none` value makes
cobra exit non-zero. -/
def runKillError (cur par : Int) (timeoutLabel : String) (targets : List KillCase) :
    Option String :=
  match (runKill cur par timeoutLabel targets).2 with
  | [] => none
  | fails => some (String.intercalate "\n" fails)

/-- A surviving process for the `claim9` witness. -/
def claim9Proc : ProcessInfo :=
  { pid := 30, ppid := 1, command := "npm run dev", cwd := "/p/stuck" }

/-- Two kill targets: one clears, one still has a process at the poll
deadline; plus one target with nothing to kill. -/
def claim9Targets : List KillCase :=
  [{ name := "clean", procs := [(⟨41, 1, "sleep 100", "/p/clean"⟩, none)], poll := .ok [] },
   { name := "stuck", procs := [(claim9Proc, none)], poll := .ok [claim9Proc] },
   { name := "idle", procs := [], poll := .ok [] }]

/-- A process list with the wt CLI (pid 10), its parent shell (pid 20),
an `npm` process (pid 30) whose parent is the editor (pid 40), and an
`npm` child worker (pid 31) of pid 30 with the same label. -/
def claim10Procs : List ProcessInfo :=
  [{ pid := 10, ppid := 20, command := "wt tidy", cwd := "/p/w" },
   { pid := 20, ppid := 1, command := "zsh", cwd := "/p/w" },
   { pid := 30, ppid := 40, command := "npm run dev", cwd := "/p/w" },
   { pid := 31, ppid := 30, command := "/usr/bin/npm", cwd := "/p/w" },
   { pid := 40, ppid := 1, command := "vi main.go", cwd := "/p/w" }]

/-- Git data for the `claim2` witness: on branch "dev", dirty, with
stash entries. -/
def claim2Data : WorktreeGitData :=
  { branch := "dev", dirty := true, hasStash := true, baseAhead := 0, baseBehind := 0,
    timestamp := 0, uniqueAhead := 0, headHash := "h", hasRemoteBranch := false,
    remoteMatchesHead := false, mergedIntoDefault := false, treeMatchesDefault := false }

/-- Worktrees for the `claim2` witness: the default worktree (skipped), a
dirty/stashed candidate on "dev", and a second worktree on the same
branch. -/
def claim2Wts : List WorktreeInput :=
  [{ name := "main", path := "/p/main", data := .error "unused" },
   { name := "feat", path := "/p/feat", data := .ok claim2Data },
   { name := "other", path := "/p/other",
     data := .ok { claim2Data with dirty := false, hasStash := false } }]

/-- The candidate the `claim2` theorem produces for the witness inputs. -/
def claim2CandW : TidyCandidate :=
  attachSharedBranch
    ((claim2Wts.filter (fun x => x.name ≠ "main")).map
      (fun x => inspectWorktreeBase "trunk" 20 14 x.name x.path "/wd" x.data 0))
    (inspectWorktreeBase "trunk" 20 14 "feat" "/p/feat" "/wd" (.ok claim2Data) 0)

/-! ## Theorems -/

theorem str_ne_of_head {a b : String} {ca cb : Char}
    (ha : a.data.head? = some ca) (hb : b.data.head? = some cb) (hne : ca ≠ cb) : a ≠ b := by
  intro e
  rw [e, hb] at ha
  exact hne (Option.some.inj ha).symm

theorem commitsNotMergedReason_head (dB : String) :
    (commitsNotMergedReason dB).data.head? = some 'c' := by
  simp only [commitsNotMergedReason, String.data_append]; rfl

theorem divergedReason_head (a b : Int) (dB : String) :
    (divergedReason a b dB).data.head? = some 'd' := by
  simp only [divergedReason, String.data_append]; rfl

theorem staleReason_head (d : Int) : (staleReason d).data.head? = some 's' := by
  simp only [staleReason, String.data_append]; rfl

theorem multiplePRsReason_head (prs : List PullRequestInfo) :
    (multiplePRsReason prs).data.head? = some 'm' := by
  simp only [multiplePRsReason, String.data_append]; rfl

theorem openPRReason_head (pr : PullRequestInfo) :
    (openPRReason pr).data.head? = some 'P' := by
  simp only [openPRReason, String.data_append]; rfl

theorem sharedBranchReason_get7 (shared : List String) :
    (sharedBranchReason shared).data.get? 7 = some 'a' := by
  simp only [sharedBranchReason, String.data_append]
  rfl

/-- Counterexample to claim C1 as stated: a tidy candidate with no block
condition, `uniqueCommitCount = 0`, no dirty state, no stash, and no
blocking processes, but with two attached pull requests, is classified
Gray with the "multiple PRs" reason — not Safe — because
`deriveClassification` appends the multiple-PRs notice outside the
`needsCleanupDecision` guard. -/
theorem claim1_counterexample :
    claim1Cand.blockReasons = [] ∧ claim1Cand.extraGrayReasons = [] ∧
    claim1Cand.uniqueAhead = 0 ∧ claim1Cand.dirty = false ∧
    claim1Cand.hasStash = false ∧ claim1Cand.processes = [] ∧
    (deriveClassification claim1Cand 0).classification = .gray ∧
    (deriveClassification claim1Cand 0).grayReasons = ["multiple PRs (#1, #2)"] ∧
    (deriveClassification claim1Cand 0).stage = .prompt := by
  decide

/-- Claim C1, amended: a tidy candidate with no block reasons, no extra
gray reasons (no PR-lookup failure and no blocking-process notice), zero
unique commits, and **at most one** attached pull request is classified
Safe with an empty reason list and Stage = Ready. -/
theorem claim1_safe_no_unique_work (cand : TidyCandidate) (now : Nat)
    (h1 : cand.blockReasons = []) (h2 : cand.extraGrayReasons = [])
    (h3 : cand.uniqueAhead = 0) (h4 : cand.prs.length ≤ 1) :
    (deriveClassification cand now).classification = .safe ∧
    (deriveClassification cand now).grayReasons = [] ∧
    (deriveClassification cand now).stage = .ready := by
  have h5 : ¬ (cand.prs.length > 1) := by omega
  simp [deriveClassification, h1, h2, h3, h5]

/-- Witness for `claim1_safe_no_unique_work` at a concrete candidate. -/
theorem claim1_safe_no_unique_work_witness :
    (deriveClassification { worktreeName := "w", worktreePath := "/p" } 0).classification
      = .safe ∧
    (deriveClassification { worktreeName := "w", worktreePath := "/p" } 0).grayReasons = [] ∧
    (deriveClassification { worktreeName := "w", worktreePath := "/p" } 0).stage = .ready :=
  claim1_safe_no_unique_work { worktreeName := "w", worktreePath := "/p" } 0
    rfl rfl rfl (by decide)

/-- Counterexample to claim C3 as stated: with `treeMatchesDefault = true`
but a positive `uniqueCommitCount`, `deriveClassification` **does**
produce the "commits not merged" gray reason — `treeMatchesDefault` is
recorded by the fact gathering but never consulted by the classifier. -/
theorem claim3_counterexample :
    claim3Cand.treeMatchesDefault = true ∧ claim3Cand.uniqueAhead = 1 ∧
    commitsNotMergedReason "main" ∈ (deriveClassification claim3Cand 0).grayReasons := by
  decide

/-- Claim C3, amended: the "commits not merged" gray reason is governed
solely by the unique-commit count — for a candidate with no block reasons
and no extra gray reasons it appears iff `uniqueAhead > 0`, irrespective
of `treeMatchesDefault`. A squash-merged branch avoids the reason only
insofar as `git cherry` itself reports zero unique commits. -/
theorem claim3_commits_reason_iff_unique (cand : TidyCandidate) (now : Nat)
    (h1 : cand.blockReasons = []) (h2 : cand.extraGrayReasons = []) :
    commitsNotMergedReason cand.defaultBranch ∈ (deriveClassification cand now).grayReasons
      ↔ 0 < cand.uniqueAhead := by
  by_cases hu : cand.uniqueAhead > 0
  · simp [deriveClassification, h1, h2, hu]
  · have hne := str_ne_of_head (commitsNotMergedReason_head cand.defaultBranch)
      (multiplePRsReason_head cand.prs) (by decide)
    simp only [deriveClassification, h1, h2, hu]
    constructor
    · intro hmem
      exfalso
      split at hmem
      all_goals simp at hmem
      all_goals split at hmem
      all_goals simp at hmem
      all_goals exact hne hmem.2
    · intro hlt; exact hlt.elim

/-- Witness for `claim3_commits_reason_iff_unique` at a concrete
candidate (the squash-merged one, where the reason is present). -/
theorem claim3_commits_reason_iff_unique_witness :
    commitsNotMergedReason claim3Cand.defaultBranch
        ∈ (deriveClassification claim3Cand 0).grayReasons
      ↔ 0 < claim3Cand.uniqueAhead :=
  claim3_commits_reason_iff_unique claim3Cand 0 rfl rfl

/-- Claim C6: for a gray candidate (positive unique-commit count, no
block or extra reasons, no PRs) with positive configured thresholds, the
divergence reason appears iff `max(|ahead|, |behind|)` is strictly
greater than `divergenceCommits`, and the staleness reason appears iff
the day count since `lastActivity` is strictly greater than `staleDays`;
equality with either threshold does not trigger the reason. -/
theorem claim6_threshold_boundaries (cand : TidyCandidate) (now : Nat)
    (h1 : cand.blockReasons = []) (h2 : cand.extraGrayReasons = [])
    (hp : cand.prs = []) (hu : 0 < cand.uniqueAhead)
    (hd : 0 < cand.divergenceThreshold) (hs : 0 < cand.staleCutoffDays) :
    ((divergedReason cand.baseAhead cand.baseBehind cand.defaultBranch
        ∈ (deriveClassification cand now).grayReasons)
      ↔ cand.divergenceThreshold < maxInt (absInt cand.baseAhead) (absInt cand.baseBehind)) ∧
    ((staleReason (daysOldOf now cand.lastActivity)
        ∈ (deriveClassification cand now).grayReasons)
      ↔ cand.staleCutoffDays < daysOldOf now cand.lastActivity) := by
  have hg : (deriveClassification cand now).grayReasons =
      [commitsNotMergedReason cand.defaultBranch, "No PR"]
      ++ (if cand.divergenceThreshold <
            maxInt (absInt cand.baseAhead) (absInt cand.baseBehind) then
          [divergedReason cand.baseAhead cand.baseBehind cand.defaultBranch] else [])
      ++ (if cand.staleCutoffDays < daysOldOf now cand.lastActivity then
          [staleReason (daysOldOf now cand.lastActivity)] else []) := by
    simp [deriveClassification, h1, h2, hp, hu, hd, hs, summarizePullRequestState,
      openPullRequests, TidyCandidate.pendingWork, hasPendingWork]
  have ndc := str_ne_of_head (divergedReason_head cand.baseAhead cand.baseBehind cand.defaultBranch)
    (commitsNotMergedReason_head cand.defaultBranch) (by decide)
  have ndn : divergedReason cand.baseAhead cand.baseBehind cand.defaultBranch ≠ "No PR" :=
    str_ne_of_head (divergedReason_head cand.baseAhead cand.baseBehind cand.defaultBranch)
      (by rfl) (by decide)
  have nds := str_ne_of_head (divergedReason_head cand.baseAhead cand.baseBehind cand.defaultBranch)
    (staleReason_head (daysOldOf now cand.lastActivity)) (by decide)
  have nsc := str_ne_of_head (staleReason_head (daysOldOf now cand.lastActivity))
    (commitsNotMergedReason_head cand.defaultBranch) (by decide)
  have nsn : staleReason (daysOldOf now cand.lastActivity) ≠ "No PR" :=
    str_ne_of_head (staleReason_head (daysOldOf now cand.lastActivity)) (by rfl) (by decide)
  rw [hg]
  constructor
  · by_cases hdiv : cand.divergenceThreshold <
        maxInt (absInt cand.baseAhead) (absInt cand.baseBehind) <;>
      by_cases hstale : cand.staleCutoffDays < daysOldOf now cand.lastActivity <;>
      simp [hdiv, hstale, ndc, ndn, nds]
  · by_cases hdiv : cand.divergenceThreshold <
        maxInt (absInt cand.baseAhead) (absInt cand.baseBehind) <;>
      by_cases hstale : cand.staleCutoffDays < daysOldOf now cand.lastActivity <;>
      simp [hdiv, hstale, nsc, nsn, nds.symm]

/-- Witness for `claim6_threshold_boundaries`: at exactly-threshold
divergence (20 vs 20) and exactly-threshold staleness (14 days vs 14),
neither reason triggers. -/
theorem claim6_threshold_boundaries_witness :
    ((divergedReason claim6Cand.baseAhead claim6Cand.baseBehind claim6Cand.defaultBranch
        ∈ (deriveClassification claim6Cand 1209600).grayReasons)
      ↔ claim6Cand.divergenceThreshold
          < maxInt (absInt claim6Cand.baseAhead) (absInt claim6Cand.baseBehind)) ∧
    ((staleReason (daysOldOf 1209600 claim6Cand.lastActivity)
        ∈ (deriveClassification claim6Cand 1209600).grayReasons)
      ↔ claim6Cand.staleCutoffDays < daysOldOf 1209600 claim6Cand.lastActivity) :=
  claim6_threshold_boundaries claim6Cand 1209600 rfl rfl rfl
    (by decide) (by decide) (by decide)

theorem restIdx_names {statuses : List WtStatus} {dw : String} {j : Nat}
    (hj : j ∈ (statuses.enum.filter
        (fun p => ¬(dw ≠ "" ∧ p.2.name = dw))).map (·.1)) :
    ∃ s, statuses.get? j = some s ∧ (dw = "" ∨ s.name ≠ dw) := by
  rcases List.mem_map.1 hj with ⟨⟨i, s⟩, hmem, rfl⟩
  rcases List.mem_filter.1 hmem with ⟨henum, hpred⟩
  refine ⟨s, ?_, by simpa using hpred⟩
  rw [List.get?_eq_getElem?]
  exact List.mem_enum_iff_getElem?.1 henum

theorem findIdx?_name {statuses : List WtStatus} {dw : String} {i : Nat}
    (h : statuses.findIdx? (fun s => s.name = dw) = some i) :
    ∃ s, statuses.get? i = some s ∧ s.name = dw := by
  rcases List.findIdx?_eq_some_iff_findIdx_eq.1 h with ⟨hlt, hidx⟩
  have hw : statuses.findIdx (fun s => s.name = dw) < statuses.length := by
    rw [hidx]; exact hlt
  have hp := @List.findIdx_getElem _ (fun s => s.name = dw) statuses hw
  refine ⟨statuses[i], ?_, ?_⟩
  · simp [List.get?_eq_getElem?, List.getElem?_eq_getElem hlt]
  · have : statuses[statuses.findIdx (fun s => s.name = dw)] = statuses[i] := by
      congr 1
    rw [this] at hp
    simpa using hp

theorem orderedIdx_nodup (statuses : List WtStatus) (dw : String) :
    (orderedIdx statuses dw).Nodup := by
  have hrest : ((statuses.enum.filter
      (fun p => ¬(dw ≠ "" ∧ p.2.name = dw))).map (·.1)).Nodup := by
    have hsub : ((statuses.enum.filter
        (fun p => ¬(dw ≠ "" ∧ p.2.name = dw))).map (·.1)).Sublist
        (statuses.enum.map (·.1)) :=
      (List.filter_sublist _).map _
    have : (statuses.enum.map (·.1)).Nodup := by
      have := List.enum_map_fst statuses
      simp only [Function.comp] at this ⊢
      rw [show ((·.1) : Nat × WtStatus → Nat) = Prod.fst from rfl, this]
      exact List.nodup_range _
    exact hsub.nodup this
  unfold orderedIdx
  by_cases hdw : dw ≠ ""
  · rw [if_pos hdw]
    cases hfi : statuses.findIdx? (fun s => s.name = dw) with
    | none => simpa using hrest
    | some i =>
      simp only [List.singleton_append, List.nodup_cons]
      refine ⟨?_, hrest⟩
      intro hmem
      rcases restIdx_names hmem with ⟨s, hs, hname⟩
      rcases findIdx?_name hfi with ⟨s', hs', hname'⟩
      rw [hs] at hs'
      cases hs'
      rcases hname with h0 | hne
      · exact hdw h0
      · exact hne hname'
  · rw [if_neg hdw, List.nil_append]
    exact hrest

theorem drainPR_log_rest (sts : List WtStatus) (pending : List (Nat × PRResult))
    (rest log : List Nat) (failed : List String) :
    (drainPR sts pending rest log failed).log ++ (drainPR sts pending rest log failed).rest
      = log ++ rest := by
  induction rest generalizing sts pending log failed with
  | nil => simp [drainPR]
  | cons i rest ih =>
    simp only [drainPR]
    cases h : lookupPending pending i with
    | none => simp
    | some res =>
      simp only []
      rw [ih]
      simp

theorem drainPR_head_free (sts : List WtStatus) (pending : List (Nat × PRResult))
    (rest log : List Nat) (failed : List String) :
    ∀ i t, (drainPR sts pending rest log failed).rest = i :: t →
      lookupPending (drainPR sts pending rest log failed).pending i = none := by
  induction rest generalizing sts pending log failed with
  | nil => intro i t h; simp [drainPR] at h
  | cons j rest ih =>
    intro i t h
    simp only [drainPR] at h ⊢
    cases hl : lookupPending pending j with
    | none =>
      rw [hl] at h
      simp at h
      obtain ⟨rfl, rfl⟩ := h
      exact hl
    | some res =>
      rw [hl] at h
      exact ih _ _ _ _ _ _ h

theorem find?_key_filter (p : List (Nat × PRResult)) (i j : Nat) (h : j ≠ i) :
    List.find? (fun e => e.1 = j) (p.filter (fun e => e.1 ≠ i))
      = List.find? (fun e => e.1 = j) p := by
  induction p with
  | nil => rfl
  | cons b p ih =>
    rw [List.filter_cons]
    by_cases hb : b.1 = i
    · rw [if_neg (by simp [hb])]
      rw [List.find?_cons_of_neg _ (by simp [hb, Ne.symm h])]
      exact ih
    · rw [if_pos (by simp [hb])]
      by_cases hj : b.1 = j
      · rw [List.find?_cons_of_pos _ (by simp [hj]), List.find?_cons_of_pos _ (by simp [hj])]
      · rw [List.find?_cons_of_neg _ (by simp [hj]), List.find?_cons_of_neg _ (by simp [hj])]
        exact ih

theorem lookupPending_insert_self (p : List (Nat × PRResult)) (a : Nat × PRResult) :
    lookupPending (insertPending p a) a.1 = some a.2 := by
  simp [lookupPending, insertPending, List.find?]

theorem lookupPending_insert_other (p : List (Nat × PRResult)) (a : Nat × PRResult)
    (j : Nat) (h : j ≠ a.1) :
    lookupPending (insertPending p a) j = lookupPending p j := by
  simp only [lookupPending, insertPending]
  rw [List.find?_cons_of_neg _ (by simp [Ne.symm h]), find?_key_filter _ _ _ h]

theorem lookupPending_erase_other (p : List (Nat × PRResult)) (i j : Nat) (h : j ≠ i) :
    lookupPending (erasePending p i) j = lookupPending p j := by
  simp only [lookupPending, erasePending]
  rw [find?_key_filter _ _ _ h]

theorem drainPR_tracks (sts : List WtStatus) (pending : List (Nat × PRResult))
    (rest log : List Nat) (failed : List String) (j : Nat)
    (h : j ∈ log ∨ (lookupPending pending j).isSome) :
    j ∈ (drainPR sts pending rest log failed).log ∨
      (lookupPending (drainPR sts pending rest log failed).pending j).isSome := by
  induction rest generalizing sts pending log failed with
  | nil => exact h
  | cons i rest ih =>
    simp only [drainPR]
    cases hl : lookupPending pending i with
    | none => exact h
    | some res =>
      apply ih
      by_cases hji : j = i
      · left; subst hji; simp
      · rcases h with hlog | hpend
        · left; simp [hlog]
        · right; rw [lookupPending_erase_other _ _ _ hji]; exact hpend

theorem processPRArrivals_log_rest (arrivals : List (Nat × PRResult))
    (sts : List WtStatus) (pending : List (Nat × PRResult))
    (rest log : List Nat) (failed : List String) :
    (processPRArrivals sts pending rest log failed arrivals).log
      ++ (processPRArrivals sts pending rest log failed arrivals).rest = log ++ rest := by
  induction arrivals generalizing sts pending rest log failed with
  | nil => rfl
  | cons a arrivals ih =>
    simp only [processPRArrivals]
    rw [ih]
    exact drainPR_log_rest _ _ _ _ _

theorem processPRArrivals_tracks (arrivals : List (Nat × PRResult))
    (sts : List WtStatus) (pending : List (Nat × PRResult))
    (rest log : List Nat) (failed : List String) (j : Nat)
    (h : j ∈ log ∨ (lookupPending pending j).isSome ∨ j ∈ arrivals.map (·.1)) :
    j ∈ (processPRArrivals sts pending rest log failed arrivals).log ∨
      (lookupPending (processPRArrivals sts pending rest log failed arrivals).pending j).isSome := by
  induction arrivals generalizing sts pending rest log failed with
  | nil =>
    rcases h with h | h | h
    · exact Or.inl h
    · exact Or.inr h
    · simp at h
  | cons a arrivals ih =>
    simp only [processPRArrivals]
    apply ih
    by_cases hja : j = a.1
    · have hins : (lookupPending (insertPending pending a) j).isSome := by
        rw [hja, lookupPending_insert_self]; rfl
      have hstep := drainPR_tracks sts (insertPending pending a) rest log failed j (Or.inr hins)
      rcases hstep with h1 | h1
      · exact Or.inl h1
      · exact Or.inr (Or.inl h1)
    · rcases h with h | h | h
      · have hstep := drainPR_tracks sts (insertPending pending a) rest log failed j (Or.inl h)
        rcases hstep with h1 | h1
        · exact Or.inl h1
        · exact Or.inr (Or.inl h1)
      · have hkeep : (lookupPending (insertPending pending a) j).isSome := by
          rw [lookupPending_insert_other _ _ _ hja]; exact h
        have hstep := drainPR_tracks sts (insertPending pending a) rest log failed j
          (Or.inr hkeep)
        rcases hstep with h1 | h1
        · exact Or.inl h1
        · exact Or.inr (Or.inl h1)
      · simp at h
        rcases h with h | h
        · exact absurd h hja
        · exact Or.inr (Or.inr (by simpa using h))

theorem processPRArrivals_head_free (arrivals : List (Nat × PRResult))
    (sts : List WtStatus) (pending : List (Nat × PRResult))
    (rest log : List Nat) (failed : List String)
    (h : ∀ i t, rest = i :: t → lookupPending pending i = none) :
    ∀ i t, (processPRArrivals sts pending rest log failed arrivals).rest = i :: t →
      lookupPending (processPRArrivals sts pending rest log failed arrivals).pending i = none := by
  induction arrivals generalizing sts pending rest log failed with
  | nil => exact h
  | cons a arrivals ih =>
    simp only [processPRArrivals]
    apply ih
    exact drainPR_head_free _ _ _ _ _

/-- Claim C5: for every sequence in which PR results arrive, the pipeline
applies updates in the fixed priority order — the application log is
always exactly the already-consumed prefix of `orderedIdx` (the default
worktree first, then the remaining statuses in original order), so no
update is ever applied out of that order; and once a result has arrived
for every status in the priority order, the log is the whole priority
order (results for not-yet-due statuses were held in the pending buffer
until their turn). -/
theorem claim5_priority_application_order (statuses : List WtStatus) (dw : String)
    (arrivals : List (Nat × PRResult)) :
    (fetchPullRequestStatuses statuses dw arrivals).log
        ++ (fetchPullRequestStatuses statuses dw arrivals).rest = orderedIdx statuses dw ∧
    ((∀ i, i ∈ orderedIdx statuses dw → i ∈ arrivals.map (·.1)) →
      (fetchPullRequestStatuses statuses dw arrivals).log = orderedIdx statuses dw) := by
  have hlr : (fetchPullRequestStatuses statuses dw arrivals).log
      ++ (fetchPullRequestStatuses statuses dw arrivals).rest = orderedIdx statuses dw := by
    have := processPRArrivals_log_rest arrivals statuses [] (orderedIdx statuses dw) [] []
    simpa [fetchPullRequestStatuses] using this
  refine ⟨hlr, fun hall => ?_⟩
  have hrestnil : (fetchPullRequestStatuses statuses dw arrivals).rest = [] := by
    cases hrest : (fetchPullRequestStatuses statuses dw arrivals).rest with
    | nil => rfl
    | cons i t =>
      exfalso
      have hnodup : ((fetchPullRequestStatuses statuses dw arrivals).log
          ++ (fetchPullRequestStatuses statuses dw arrivals).rest).Nodup := by
        rw [hlr]; exact orderedIdx_nodup statuses dw
      have hdisj := List.disjoint_of_nodup_append hnodup
      have hio : i ∈ orderedIdx statuses dw := by
        rw [← hlr, hrest]; simp
      have htrack := processPRArrivals_tracks arrivals statuses [] (orderedIdx statuses dw)
        [] [] i (Or.inr (Or.inr (hall i hio)))
      rcases htrack with hlog | hpend
      · exact hdisj hlog (by rw [hrest]; simp)
      · have hfree := processPRArrivals_head_free arrivals statuses [] (orderedIdx statuses dw)
          [] [] (fun i t h => by simp [lookupPending]) i t hrest
        have hpend' : (lookupPending (processPRArrivals statuses []
            (orderedIdx statuses dw) [] [] arrivals).pending i).isSome = true := hpend
        rw [hfree] at hpend'
        simp at hpend'
  rw [← hlr, hrestnil, List.append_nil]

/-- Witness for `claim5_priority_application_order`: results arriving in
the order `alpha, beta, main` are still applied `main, beta, alpha`. -/
theorem claim5_priority_application_order_witness :
    (fetchPullRequestStatuses claim5Sts "main" claim5Arr).log
      = orderedIdx claim5Sts "main" :=
  (claim5_priority_application_order claim5Sts "main" claim5Arr).2 (by decide)

/-- Counterexample to claim C4 as stated: after the one result of one
status is applied, its label is the empty summary (no pending work), and
the cancellation handling then overwrites that applied label with
"PR: interrupted" — so an already-applied status does not always keep the
label its result gave it. -/
theorem claim4_counterexample :
    (fetchPullRequestStatuses claim4Sts "main" claim4Arr).log = [0] ∧
    ((fetchPullRequestStatuses claim4Sts "main" claim4Arr).statuses.get? 0).map (·.prStatus)
      = some "" ∧
    ((fetchPullRequestStatusesCancelled claim4Sts "main" claim4Arr).statuses.get? 0).map
        (·.prStatus) = some prInterruptedLabel ∧
    ("" : String) ≠ prInterruptedLabel := by
  decide

/-- Claim C4, amended: when the pipeline is cancelled after any number of
results have been applied, every status whose (trimmed) label is empty,
the loading placeholder, or already the interrupted label is transitioned
to "PR: interrupted" — in particular every still-loading status — and
every other status, in particular every applied status whose label is
non-empty, is left exactly as the applied result set it. -/
theorem claim4_interrupted_labels (statuses : List WtStatus) (dw : String)
    (arrivals : List (Nat × PRResult)) (i : Nat) (st : WtStatus)
    (h : (fetchPullRequestStatuses statuses dw arrivals).statuses.get? i = some st) :
    ((strTrim st.prStatus = "" ∨ strEqualFold (strTrim st.prStatus) prLoadingLabel
        ∨ strEqualFold (strTrim st.prStatus) prInterruptedLabel) →
      (fetchPullRequestStatusesCancelled statuses dw arrivals).statuses.get? i
        = some { st with prStatus := prInterruptedLabel }) ∧
    (¬(strTrim st.prStatus = "" ∨ strEqualFold (strTrim st.prStatus) prLoadingLabel
        ∨ strEqualFold (strTrim st.prStatus) prInterruptedLabel) →
      (fetchPullRequestStatusesCancelled statuses dw arrivals).statuses.get? i = some st) := by
  have hm : (fetchPullRequestStatusesCancelled statuses dw arrivals).statuses.get? i
      = ((fetchPullRequestStatuses statuses dw arrivals).statuses.get? i).map
        (fun st =>
          if strTrim st.prStatus = "" ∨ strEqualFold (strTrim st.prStatus) prLoadingLabel
              ∨ strEqualFold (strTrim st.prStatus) prInterruptedLabel then
            { st with prStatus := prInterruptedLabel }
          else st) := by
    simp [fetchPullRequestStatusesCancelled, markPRInterrupted, List.get?_eq_getElem?,
      List.getElem?_map]
  rw [hm, h]
  constructor
  · intro hcond
    exact congrArg some (if_pos hcond)
  · intro hcond
    exact congrArg some (if_neg hcond)

/-- Witness for `claim4_interrupted_labels`: an applied non-empty label
("PR: unavailable (gh exploded)") survives cancellation unchanged. -/
theorem claim4_interrupted_labels_witness :
    (fetchPullRequestStatusesCancelled claim5Sts "main" claim5Arr).statuses.get? 0
      = some { name := "beta", prStatus := "PR: unavailable (gh exploded)",
               hasPendingWork := true, uniqueAhead := 1 } :=
  (claim4_interrupted_labels claim5Sts "main" claim5Arr 0
      { name := "beta", prStatus := "PR: unavailable (gh exploded)",
        hasPendingWork := true, uniqueAhead := 1 }
      (by decide)).2 (by decide)

theorem w3dec_total (w : Widths3) (idx : Fin 3) (h : 0 < w3get w idx) :
    w3total (w3dec w idx) = w3total w - 1 := by
  match idx with
  | ⟨0, _⟩ => simp [w3dec, w3total, w3get] at h ⊢; omega
  | ⟨1, _⟩ => simp [w3dec, w3total, w3get] at h ⊢; omega
  | ⟨2, _⟩ => simp [w3dec, w3total, w3get] at h ⊢; omega

theorem w3get_le_total (w : Widths3) (idx : Fin 3) : w3get w idx ≤ w3total w := by
  match idx with
  | ⟨0, _⟩ => simp [w3total, w3get]; omega
  | ⟨1, _⟩ => simp [w3total, w3get]; omega
  | ⟨2, _⟩ => simp [w3total, w3get]; omega

theorem w3dec_get_other (w : Widths3) (idx i : Fin 3) :
    w3get (w3dec w idx) i = if i = idx then w3get w idx - 1 else w3get w i := by
  match idx, i with
  | ⟨0, _⟩, ⟨0, _⟩ => simp [w3dec, w3get]
  | ⟨0, _⟩, ⟨1, _⟩ => simp [w3dec, w3get]
  | ⟨0, _⟩, ⟨2, _⟩ => simp [w3dec, w3get]
  | ⟨1, _⟩, ⟨0, _⟩ => simp [w3dec, w3get]
  | ⟨1, _⟩, ⟨1, _⟩ => simp [w3dec, w3get]
  | ⟨1, _⟩, ⟨2, _⟩ => simp [w3dec, w3get]
  | ⟨2, _⟩, ⟨0, _⟩ => simp [w3dec, w3get]
  | ⟨2, _⟩, ⟨1, _⟩ => simp [w3dec, w3get]
  | ⟨2, _⟩, ⟨2, _⟩ => simp [w3dec, w3get]

theorem shrinkPassAux_spec (mins : Widths3) (prio : List (Fin 3)) :
    ∀ (w : Widths3) (e : Nat) (s : Bool) (w' : Widths3) (e' : Nat) (s' : Bool),
    0 < e → shrinkPassAux mins prio w e s = (w', e', s') →
    (∀ i, w3get mins i ≤ w3get w i) →
    (w3total w' + e = w3total w + e') ∧
    (∀ i, w3get mins i ≤ w3get w' i) ∧
    e' ≤ e ∧
    (s' = false → w' = w ∧ e' = e ∧ s = false ∧
      ∀ idx ∈ prio, w3get w idx ≤ w3get mins idx) ∧
    (s' = true → s = false → e' < e) := by
  induction prio with
  | nil =>
    intro w e s w' e' s' he heq hm
    simp only [shrinkPassAux, Prod.mk.injEq] at heq
    obtain ⟨hw, he', hs⟩ := heq
    subst hw; subst he'; subst hs
    refine ⟨by omega, hm, le_refl _, fun hs => ⟨rfl, rfl, hs, by simp⟩, ?_⟩
    intro h1 h2
    rw [h2] at h1
    exact absurd h1 (by simp)
  | cons idx rest ih =>
    intro w e s w' e' s' he heq hm
    simp only [shrinkPassAux] at heq
    by_cases h : w3get mins idx < w3get w idx
    · rw [if_pos h] at heq
      have hdec := w3dec_total w idx (by omega)
      have hlt := w3get_le_total w idx
      have hm' : ∀ i, w3get mins i ≤ w3get (w3dec w idx) i := by
        intro i
        rw [w3dec_get_other]
        by_cases hi : i = idx
        · rw [if_pos hi, hi]; omega
        · rw [if_neg hi]; exact hm i
      by_cases h0 : e - 1 = 0
      · rw [if_pos h0] at heq
        simp only [Prod.mk.injEq] at heq
        obtain ⟨hw, he', hs⟩ := heq
        subst hw; subst he'; subst hs
        refine ⟨by omega, hm', by omega, ?_, fun _ _ => by omega⟩
        intro hcontra
        exact absurd hcontra (by simp)
      · rw [if_neg h0] at heq
        have ih' := ih (w3dec w idx) (e - 1) true w' e' s' (by omega) heq hm'
        refine ⟨by omega, ih'.2.1, by omega, ?_, ?_⟩
        · intro hs'
          have hh := (ih'.2.2.2.1 hs').2.2.1
          exact absurd hh (by simp)
        · intro _ _
          have := ih'.2.2.1
          omega
    · rw [if_neg h] at heq
      have ih' := ih w e s w' e' s' he heq hm
      refine ⟨ih'.1, ih'.2.1, ih'.2.2.1, ?_, ih'.2.2.2.2⟩
      intro hs'
      have hh := ih'.2.2.2.1 hs'
      refine ⟨hh.1, hh.2.1, hh.2.2.1, ?_⟩
      intro j hj
      rcases List.mem_cons.1 hj with rfl | hj'
      · omega
      · exact hh.2.2.2 j hj'

theorem w3total_mono (a b : Widths3) (h : ∀ i, w3get a i ≤ w3get b i) :
    w3total a ≤ w3total b := by
  have h0 := h (0 : Fin 3)
  have h1 := h (1 : Fin 3)
  have h2 := h (2 : Fin 3)
  simp [w3get] at h0 h1 h2
  simp [w3total]
  omega

theorem w3eq_of_le_ge (a b : Widths3) (h1 : ∀ i, w3get a i ≤ w3get b i)
    (h2 : ∀ i ∈ shrinkPriority, w3get b i ≤ w3get a i) : b = a := by
  have e0 := h1 (0 : Fin 3)
  have e1 := h1 (1 : Fin 3)
  have e2 := h1 (2 : Fin 3)
  have f0 := h2 (0 : Fin 3) (by decide)
  have f1 := h2 (1 : Fin 3) (by decide)
  have f2 := h2 (2 : Fin 3) (by decide)
  simp [w3get] at e0 e1 e2 f0 f1 f2
  cases a; cases b
  simp_all
  omega

theorem shrinkIter_spec (mins : Widths3) :
    ∀ (fuel : Nat) (w : Widths3) (e target : Nat),
    (∀ i, w3get mins i ≤ w3get w i) →
    w3total w = target + e →
    e ≤ fuel →
    (∀ i, w3get mins i ≤ w3get (shrinkIter mins fuel w e) i) ∧
    w3total (shrinkIter mins fuel w e) = max target (w3total mins) := by
  intro fuel
  induction fuel with
  | zero =>
    intro w e target hm ht hf
    have he : e = 0 := by omega
    subst he
    have hmt := w3total_mono mins w hm
    simp only [shrinkIter]
    exact ⟨hm, by omega⟩
  | succ fuel ih =>
    intro w e target hm ht hf
    simp only [shrinkIter]
    by_cases he0 : e = 0
    · rw [if_pos he0]
      subst he0
      have hmt := w3total_mono mins w hm
      exact ⟨hm, by omega⟩
    · rw [if_neg he0]
      rcases hsp : shrinkPassAux mins shrinkPriority w e false with ⟨w', e', s'⟩
      have spec := shrinkPassAux_spec mins shrinkPriority w e false w' e' s'
        (by omega) hsp hm
      cases s' with
      | true =>
        simp only [if_true]
        have hlt : e' < e := spec.2.2.2.2 rfl rfl
        have ht' : w3total w' = target + e' := by
          have := spec.1
          omega
        exact ih w' e' target spec.2.1 ht' (by omega)
      | false =>
        simp only [Bool.false_eq_true, if_false]
        have hh := spec.2.2.2.1 rfl
        have hw : w = mins := by
          have := hh.1
          subst this
          exact w3eq_of_le_ge mins w' hm hh.2.2.2
        have hmt : w3total w = w3total mins := by rw [hw]
        refine ⟨hm, ?_⟩
        have he' : e' = e := hh.2.1
        omega

/-- Counterexample to claim C7 as stated: with no rows the natural
(minimum-clamped) total is 24 + 16 + 24 plus two 3-wide gaps = 70; a
requested width of 50 is narrower than that, yet the computed layout
cannot shrink below the minimums and its total width 70 exceeds the
requested 50. -/
theorem claim7_counterexample :
    50 < w3total (effectiveMins []) ∧
    (buildColumnLayout [] 50).widths = ⟨24, 16, 24⟩ ∧
    w3total (buildColumnLayout [] 50).widths = 70 := by
  decide

/-- Claim C7, amended: for every requested width W > 0, no column of the
computed layout is below its effective minimum (the static minimums
[24, 16, 24] with the identity column's minimum raised to its natural
content width), and the layout's total width (columns plus gaps) equals
max(W, total of the effective minimums): when the minimums fit, the total
is exactly W — shrinking absorbs any narrow excess and the last column
absorbs exactly any surplus — and when W is smaller than the minimum
total, the layout stays at the minimums and exceeds W. -/
theorem claim7_layout_width (rows : List Widths3) (maxWidth : Nat) (hw : 0 < maxWidth) :
    (∀ i, w3get (effectiveMins rows) i
        ≤ w3get (buildColumnLayout rows maxWidth).widths i) ∧
    w3total (buildColumnLayout rows maxWidth).widths
      = max maxWidth (w3total (effectiveMins rows)) := by
  unfold buildColumnLayout
  rw [if_pos hw]
  dsimp only
  set measured := measureRows rows with hmeas
  set mins := effectiveMins rows with hmins
  set widths0 : Widths3 :=
    ⟨max measured.c0 mins.c0, max measured.c1 mins.c1, max measured.c2 mins.c2⟩ with hw0
  have hm0 : ∀ i, w3get mins i ≤ w3get widths0 i := by
    intro i
    match i with
    | ⟨0, _⟩ => simp [w3get, hw0]
    | ⟨1, _⟩ => simp [w3get, hw0]
    | ⟨2, _⟩ => simp [w3get, hw0]
  by_cases hfit : w3total widths0 ≤ maxWidth
  · have hshr : shrinkWidths widths0 mins maxWidth = widths0 := by
      unfold shrinkWidths
      rw [if_pos hfit]
    rw [hshr]
    have hminsle : w3total mins ≤ maxWidth :=
      le_trans (w3total_mono mins widths0 hm0) hfit
    by_cases hlt : w3total widths0 < maxWidth
    · rw [if_pos hlt]
      constructor
      · intro i
        match i with
        | ⟨0, _⟩ => simp [w3get]
        | ⟨1, _⟩ => simp [w3get]
        | ⟨2, _⟩ =>
          have := hm0 ⟨2, by omega⟩
          simp [w3get] at this ⊢
          omega
      · simp only [w3total] at hlt ⊢
        omega
    · rw [if_neg hlt]
      constructor
      · exact hm0
      · omega
  · have he : w3total widths0 = maxWidth + (w3total widths0 - maxWidth) := by omega
    have spec := shrinkIter_spec mins (w3total widths0 - maxWidth) widths0
      (w3total widths0 - maxWidth) maxWidth hm0 he (le_refl _)
    have hshr : shrinkWidths widths0 mins maxWidth
        = shrinkIter mins (w3total widths0 - maxWidth) widths0
          (w3total widths0 - maxWidth) := by
      unfold shrinkWidths
      rw [if_neg hfit]
    rw [hshr]
    have htot := spec.2
    rw [if_neg (by omega)]
    exact ⟨spec.1, htot⟩

/-- Witness for `claim7_layout_width`: one row measuring 30/16/40 at a
requested width of 100 — wider than the natural 92 — yields total width
exactly 100 (the last column absorbed the surplus). -/
theorem claim7_layout_width_witness :
    w3total (buildColumnLayout [⟨30, 16, 40⟩] 100).widths
      = max 100 (w3total (effectiveMins [⟨30, 16, 40⟩])) :=
  (claim7_layout_width [⟨30, 16, 40⟩] 100 (by decide)).2

theorem strWidth_append (cw : Char → Nat) (a b : List Char) :
    strWidth cw (a ++ b) = strWidth cw a + strWidth cw b := by
  simp [strWidth]

theorem strWidth_replicate_space (cw : Char → Nat) (hsp : cw ' ' = 1) (k : Nat) :
    strWidth cw (List.replicate k ' ') = k := by
  simp [strWidth, List.map_replicate, hsp]

theorem takeWidth_le (cw : Char → Nat) (s : List Char) (w : Nat) :
    strWidth cw (takeWidth cw s w) ≤ w := by
  induction s generalizing w with
  | nil => simp [takeWidth, strWidth]
  | cons c rest ih =>
    simp only [takeWidth]
    by_cases h : cw c ≤ w
    · rw [if_pos h]
      have := ih (w - cw c)
      simp only [strWidth, List.map_cons, List.sum_cons] at this ⊢
      omega
    · rw [if_neg h]
      simp [strWidth]

theorem takeWidth_is_take (cw : Char → Nat) (s : List Char) (w : Nat) :
    ∃ n, takeWidth cw s w = s.take n := by
  induction s generalizing w with
  | nil => exact ⟨0, rfl⟩
  | cons c rest ih =>
    simp only [takeWidth]
    by_cases h : cw c ≤ w
    · rw [if_pos h]
      rcases ih (w - cw c) with ⟨n, hn⟩
      exact ⟨n + 1, by simp [hn]⟩
    · rw [if_neg h]
      exact ⟨0, rfl⟩

/-- Claim C8: for every glyph string and width W > 0, `padOrTrim` returns
a string of rendered width exactly W under any glyph-width table that
renders the space, ellipsis, and closing-parenthesis glyphs one cell wide
(as go-runewidth does); moreover the result is a glyph-boundary prefix of
the input followed only by padding/ellipsis glyphs, so no multi-cell
glyph is ever split. -/
theorem claim8_padOrTrim_width (cw : Char → Nat) (text : List Char) (width : Nat)
    (hw : 0 < width) (hsp : cw ' ' = 1) (hell : cw '…' = 1) (hpar : cw ')' = 1) :
    strWidth cw (padOrTrim cw text width) = width ∧
    ∃ n suffix, padOrTrim cw text width = text.take n ++ suffix ∧
      ∀ c ∈ suffix, c = ' ' ∨ c = '…' ∨ c = ')' := by
  have hw0 : width ≠ 0 := by omega
  unfold padOrTrim
  rw [if_neg hw0]
  by_cases hlt : strWidth cw text < width
  · rw [if_pos hlt]
    constructor
    · rw [strWidth_append, strWidth_replicate_space cw hsp]
      omega
    · exact ⟨text.length, List.replicate (width - strWidth cw text) ' ',
        by simp, fun c hc => Or.inl (List.eq_of_mem_replicate hc)⟩
  · rw [if_neg hlt]
    by_cases heq : strWidth cw text = width
    · rw [if_pos heq]
      exact ⟨heq, text.length, [], by simp, by simp⟩
    · rw [if_neg heq]
      by_cases hind : text.getLast? = some ')' ∧ 1 < width
      · rw [if_pos hind]
        dsimp only
        have hiw : strWidth cw ['…', ')'] = 2 := by simp [strWidth, hell, hpar]
        rw [hiw]
        by_cases hwi : width ≤ 2
        · rw [if_pos hwi]
          have hw2 : width = 2 := by omega
          subst hw2
          have h2 : truncateRunes cw ['…', ')'] 2 = ['…', ')'] := by
            unfold truncateRunes
            rw [if_pos (by simp [hiw])]
          rw [h2]
          exact ⟨hiw, 0, ['…', ')'], by simp, by simp⟩
        · rw [if_neg hwi]
          rcases takeWidth_is_take cw text (width - 2) with ⟨n, hn⟩
          have htw := takeWidth_le cw text (width - 2)
          have htr : truncateRunes cw text (width - 2)
              = takeWidth cw text (width - 2) := by
            unfold truncateRunes
            rw [if_neg (by omega)]
          rw [htr]
          set trimmed := takeWidth cw text (width - 2) with hdef
          have hres : strWidth cw (trimmed ++ ['…', ')'])
              = strWidth cw trimmed + 2 := by
            rw [strWidth_append, hiw]
          by_cases hpad : strWidth cw (trimmed ++ ['…', ')']) < width
          · rw [if_pos hpad]
            constructor
            · rw [strWidth_append, strWidth_replicate_space cw hsp]
              omega
            · exact ⟨n, ['…', ')']
                  ++ List.replicate (width - strWidth cw (trimmed ++ ['…', ')'])) ' ',
                by simp [hn], by
                  intro c hc
                  simp at hc
                  rcases hc with h | h | h
                  · exact Or.inr (Or.inl h)
                  · exact Or.inr (Or.inr h)
                  · exact Or.inl h.2⟩
          · rw [if_neg hpad]
            constructor
            · omega
            · exact ⟨n, ['…', ')'], by simp [hn], by simp⟩
      · rw [if_neg hind]
        dsimp only
        have hiw : strWidth cw ['…'] = 1 := by simp [strWidth, hell]
        rw [hiw]
        by_cases hwi : width ≤ 1
        · rw [if_pos hwi]
          have hw1 : width = 1 := by omega
          subst hw1
          have h1 : truncateRunes cw ['…'] 1 = ['…'] := by
            unfold truncateRunes
            rw [if_pos (by simp [hiw])]
          rw [h1]
          exact ⟨hiw, 0, ['…'], by simp, by simp⟩
        · rw [if_neg hwi]
          rcases takeWidth_is_take cw text (width - 1) with ⟨n, hn⟩
          have htw := takeWidth_le cw text (width - 1)
          have htr : truncateRunes cw text (width - 1)
              = takeWidth cw text (width - 1) := by
            unfold truncateRunes
            rw [if_neg (by omega)]
          rw [htr]
          set trimmed := takeWidth cw text (width - 1) with hdef
          have hres : strWidth cw (trimmed ++ ['…'])
              = strWidth cw trimmed + 1 := by
            rw [strWidth_append, hiw]
          by_cases hpad : strWidth cw (trimmed ++ ['…']) < width
          · rw [if_pos hpad]
            constructor
            · rw [strWidth_append, strWidth_replicate_space cw hsp]
              omega
            · exact ⟨n, ['…'] ++ List.replicate (width - strWidth cw (trimmed ++ ['…'])) ' ',
                by simp [hn], by
                  intro c hc
                  simp at hc
                  rcases hc with h | h
                  · exact Or.inr (Or.inl h)
                  · exact Or.inl h.2⟩
          · rw [if_neg hpad]
            constructor
            · omega
            · exact ⟨n, ['…'], by simp [hn], by simp⟩

/-- Witness for `claim8_padOrTrim_width`: the nine-glyph cell
"build (ok)" truncated to width 6 under the uniform one-cell table
renders exactly six cells (preserving the trailing parenthesis as "…)"). -/
theorem claim8_padOrTrim_width_witness :
    strWidth (fun _ => 1) (padOrTrim (fun _ => 1) "build (ok)".data 6) = 6 :=
  (claim8_padOrTrim_width (fun _ => 1) "build (ok)".data 6
    (by decide) rfl rfl rfl).1

/-- Claim C9: the kill command attempts every targeted worktree that has
processes, regardless of failures at earlier targets (the attempted list
is exactly the non-empty targets, in order); the command's returned error
is nil iff no attempted target failed — equivalently, the exit status is
non-zero iff at least one target failed, even when others were cleared;
and a target whose processes all accept the signal but survive the poll
deadline is such a failure. -/
theorem claim9_kill_aggregation (cur par : Int) (tl : String) (targets : List KillCase) :
    (runKill cur par tl targets).1
      = (targets.filter (fun t => t.procs ≠ [])).map (·.name) ∧
    ((runKillError cur par tl targets = none) ↔
      ∀ t ∈ targets, t.procs ≠ [] →
        terminateWorktreeProcesses cur par tl t.procs t.poll = none) ∧
    (∀ t ∈ targets, (∀ pe ∈ t.procs, pe.2 = none) →
      ∀ r, t.poll = .ok r → r ≠ [] →
        terminateWorktreeProcesses cur par tl t.procs t.poll ≠ none) := by
  refine ⟨?_, ?_, ?_⟩
  · induction targets with
    | nil => rfl
    | cons t rest ih =>
      by_cases hp : t.procs = []
      · simp only [runKill, if_pos hp, List.filter_cons, hp]
        simp [ih]
      · simp only [runKill, if_neg hp, List.filter_cons]
        rw [if_pos (by simpa using hp)]
        cases hres : terminateWorktreeProcesses cur par tl t.procs t.poll with
        | none => simp [ih]
        | some e => simp [ih]
  · unfold runKillError
    induction targets with
    | nil => simp [runKill]
    | cons t rest ih =>
      by_cases hp : t.procs = []
      · simp only [runKill, if_pos hp]
        constructor
        · intro h t' ht' hne
          rcases List.mem_cons.1 ht' with rfl | hmem
          · exact absurd hp hne
          · exact (ih.1 h) t' hmem hne
        · intro h
          apply ih.2
          intro t' ht' hne
          exact h t' (List.mem_cons_of_mem _ ht') hne
      · simp only [runKill, if_neg hp]
        cases hres : terminateWorktreeProcesses cur par tl t.procs t.poll with
        | none =>
          simp only []
          constructor
          · intro h t' ht' hne
            rcases List.mem_cons.1 ht' with rfl | hmem
            · exact hres
            · exact (ih.1 h) t' hmem hne
          · intro h
            apply ih.2
            intro t' ht' hne
            exact h t' (List.mem_cons_of_mem _ ht') hne
        | some e =>
          simp only []
          constructor
          · intro h
            simp at h
          · intro h
            have := h t (List.mem_cons_self _ _) hp
            rw [hres] at this
            simp at this
  · intro t _ hsig r hpoll hr
    unfold terminateWorktreeProcesses
    have herrs : t.procs.filterMap (fun pe => pe.2.map (fun e =>
        processCommandLabel pe.1.command ++ " (" ++ toString pe.1.pid ++ "): " ++ e)) = [] := by
      rw [List.filterMap_eq_nil_iff]
      intro pe hpe
      rw [hsig pe hpe]
      rfl
    rw [herrs]
    simp only [ne_eq, not_true_eq_false, if_false, hpoll]
    rw [if_pos hr]
    simp

/-- Witness for `claim9_kill_aggregation`: both non-empty targets are
attempted even though the second fails. -/
theorem claim9_kill_aggregation_witness :
    (runKill 10 20 "3s" claim9Targets).1
      = (claim9Targets.filter (fun t => t.procs ≠ [])).map (·.name) :=
  (claim9_kill_aggregation 10 20 "3s" claim9Targets).1

theorem pidIndexOf_sound {l : List ProcessInfo} {x : Int} {j : Nat}
    (h : pidIndexOf l x = some j) :
    ∃ q, l.get? j = some q ∧ q.pid = x := by
  unfold pidIndexOf at h
  cases hl : (l.enum.filter (fun e => e.2.pid = x)).getLast? with
  | none => rw [hl] at h; simp at h
  | some e =>
    rw [hl] at h
    simp at h
    have hmem := List.mem_of_mem_getLast? hl
    rcases List.mem_filter.1 hmem with ⟨henum, hpred⟩
    refine ⟨e.2, ?_, by simpa using hpred⟩
    rw [← h, List.get?_eq_getElem?]
    exact List.mem_enum_iff_getElem?.1 henum

theorem pidIndexOf_isSome {l : List ProcessInfo} {x : Int} {q : ProcessInfo}
    (hq : q ∈ l) (hx : q.pid = x) : pidIndexOf l x ≠ none := by
  unfold pidIndexOf
  rcases List.get?_of_mem hq with ⟨n, hn⟩
  have henum : (n, q) ∈ l.enum := by
    rw [List.mem_enum_iff_getElem?]
    simpa [List.get?_eq_getElem?] using hn
  have hmem : (n, q) ∈ l.enum.filter (fun e => e.2.pid = x) :=
    List.mem_filter.2 ⟨henum, by simpa using hx⟩
  intro hcontra
  cases hL : (l.enum.filter (fun e => e.2.pid = x)).getLast? with
  | some e => rw [hL] at hcontra; simp at hcontra
  | none =>
    rw [List.getLast?_eq_none_iff] at hL
    rw [hL] at hmem
    simp at hmem

/-- Claim C10: for every process enumeration with distinct pids, the
pruned blocking-process list contains neither the running wt invocation
nor its parent process (by pid), and never both a parent and a child
whose command labels match case-insensitively — the child is always
dropped in favour of the parent. -/
theorem claim10_prune_self_and_duplicates (cur par : Int) (procs : List ProcessInfo)
    (hnd : (procs.map (·.pid)).Nodup) :
    (∀ p ∈ pruneProcessList cur par procs, p.pid ≠ cur ∧ p.pid ≠ par) ∧
    (∀ p ∈ pruneProcessList cur par procs, ∀ q ∈ pruneProcessList cur par procs,
      q.pid = p.ppid →
      strEqualFold (processCommandLabel q.command) (processCommandLabel p.command)
        = false) := by
  have hout : ∀ p ∈ pruneProcessList cur par procs,
      p ∈ pruneFiltered cur par procs ∧ pruneKeep (pruneFiltered cur par procs) p = true := by
    intro p hp
    unfold pruneProcessList at hp
    by_cases h0 : procs = []
    · rw [if_pos h0] at hp; rw [h0] at hp; simp at hp
    · rw [if_neg h0] at hp
      by_cases h1 : pruneFiltered cur par procs = []
      · simp only [h1] at hp
        simp at hp
      · rw [if_neg h1] at hp
        exact List.mem_filter.1 hp
  have hfsub : ∀ p ∈ pruneFiltered cur par procs, p ∈ procs ∧ p.pid ≠ cur ∧ p.pid ≠ par := by
    intro p hp
    rcases List.mem_filter.1 hp with ⟨hmem, hpred⟩
    refine ⟨hmem, ?_⟩
    simpa using hpred
  have hndf : ((pruneFiltered cur par procs).map (·.pid)).Nodup := by
    have hsb : (pruneFiltered cur par procs).Sublist procs := List.filter_sublist _
    exact (hsb.map _).nodup hnd
  constructor
  · intro p hp
    exact (hfsub p (hout p hp).1).2
  · intro p hp q hq hpid
    have hpf := hout p hp
    have hqf := hout q hq
    have hkeep := hpf.2
    unfold pruneKeep at hkeep
    cases hidx : pidIndexOf (pruneFiltered cur par procs) p.ppid with
    | none =>
      exact absurd hidx (pidIndexOf_isSome hqf.1 hpid)
    | some j =>
      rcases pidIndexOf_sound hidx with ⟨parent, hget, hparentpid⟩
      rw [hidx] at hkeep
      have hkeep2 : (match (pruneFiltered cur par procs).get? j with
          | none => true
          | some parent => (decide (¬ strEqualFold (processCommandLabel parent.command)
              (processCommandLabel p.command) = true) : Bool)) = true := hkeep
      rw [hget] at hkeep2
      have hparentmem : parent ∈ pruneFiltered cur par procs := by
        rw [List.get?_eq_getElem?] at hget
        exact List.getElem?_mem hget
      have hqp : q = parent := by
        apply List.inj_on_of_nodup_map hndf hqf.1 hparentmem
        rw [hpid, hparentpid]
      rw [hqp]
      simpa using hkeep2

/-- Witness for `claim10_prune_self_and_duplicates`: the pruned list
keeps only the npm parent and the editor, and the kept npm process's
label differs (case-insensitively) from its kept parent's label. -/
theorem claim10_prune_self_and_duplicates_witness :
    pruneProcessList 10 20 claim10Procs
      = [{ pid := 30, ppid := 40, command := "npm run dev", cwd := "/p/w" },
         { pid := 40, ppid := 1, command := "vi main.go", cwd := "/p/w" }] ∧
    strEqualFold (processCommandLabel "vi main.go") (processCommandLabel "npm run dev")
      = false :=
  ⟨by decide,
   (claim10_prune_self_and_duplicates 10 20 claim10Procs (by decide)).2
     { pid := 30, ppid := 40, command := "npm run dev", cwd := "/p/w" } (by decide)
     { pid := 40, ppid := 1, command := "vi main.go", cwd := "/p/w" } (by decide) (by decide)⟩

theorem str_ne_of_data_get {a b : String} {k : Nat} {ca cb : Char}
    (ha : a.data.get? k = some ca) (hb : b.data.get? k = some cb) (hne : ca ≠ cb) : a ≠ b := by
  intro e
  rw [e, hb] at ha
  exact hne (Option.some.inj ha).symm

theorem insertSorted_ne_nil (x : String) (l : List String) : insertSorted x l ≠ [] := by
  cases l with
  | nil => simp [insertSorted]
  | cons y ys =>
    simp only [insertSorted]
    split <;> simp

theorem sortStrings_ne_nil (l : List String) (h : l ≠ []) : sortStrings l ≠ [] := by
  cases l with
  | nil => exact absurd rfl h
  | cons x xs => exact insertSorted_ne_nil x _

theorem inspect_ok_blockReasons (dB : String) (divT staleD : Int) (n p wd : String)
    (d : WorktreeGitData) (now : Nat) :
    (inspectWorktreeBase dB divT staleD n p wd (.ok d) now).blockReasons =
      (if d.branch = "" ∨ d.branch = "HEAD" then ["detached HEAD"] else [])
      ++ (if d.branch = dB then ["branch is the default (" ++ dB ++ ")"] else [])
      ++ (if isWithin wd p then [blockReasonCurrentWorktree] else [])
      ++ (if d.dirty then ["worktree has uncommitted changes"] else [])
      ++ (if d.hasStash then ["stash entries reference this branch"] else []) := rfl

theorem attachSharedBranch_blockReasons (base : List TidyCandidate) (cand : TidyCandidate) :
    (attachSharedBranch base cand).blockReasons =
      cand.blockReasons ++
        (if filterOtherWorktrees
            ((base.filter (fun c => c.branch = cand.branch)).map (·.worktreeName))
            cand.worktreeName ≠ [] then
          [sharedBranchReason (filterOtherWorktrees
            ((base.filter (fun c => c.branch = cand.branch)).map (·.worktreeName))
            cand.worktreeName)] else []) := by
  unfold attachSharedBranch
  dsimp only
  split
  next h => simp [h]
  next h => simp [h]

theorem attachSharedBranch_sharedWith (base : List TidyCandidate) (cand : TidyCandidate) :
    (attachSharedBranch base cand).sharedWith =
      filterOtherWorktrees
        ((base.filter (fun c => c.branch = cand.branch)).map (·.worktreeName))
        cand.worktreeName := by
  unfold attachSharedBranch
  dsimp only
  split
  next h => rfl
  next h => rfl

theorem detachedReason_get0 : ("detached HEAD").data.get? 0 = some 'd' := rfl

theorem defaultBranchReason_get0 (dB : String) :
    ("branch is the default (" ++ dB ++ ")").data.get? 0 = some 'b' := by
  simp only [String.data_append]; rfl

theorem defaultBranchReason_get7 (dB : String) :
    ("branch is the default (" ++ dB ++ ")").data.get? 7 = some 'i' := by
  simp only [String.data_append]; rfl

theorem sharedBranchReason_get0 (shared : List String) :
    (sharedBranchReason shared).data.get? 0 = some 'b' := by
  simp only [sharedBranchReason, String.data_append]; rfl

theorem sharedBranchReason_get2 (shared : List String) :
    (sharedBranchReason shared).data.get? 2 = some 'a' := by
  simp only [sharedBranchReason, String.data_append]; rfl

theorem gitErrorReason_head_or (name e : String) :
    (gitErrorReason name e).data.get? 0 = some 'g' ∨
    (gitErrorReason name e).data.get? 2 = some 'o' := by
  unfold gitErrorReason friendlyWorktreeGitError
  dsimp only
  cases h1 : containsSubstr (strToLower (singleLineError e)) "not a git repository" with
  | false =>
    left
    rfl
  | true =>
    cases h2 : containsSubstr (singleLineError e) ".git/worktrees/" with
    | false =>
      left
      rfl
    | true =>
      right
      rfl

theorem gitErrorReason_ne_shared (name e : String) (sh : List String) :
    gitErrorReason name e ≠ sharedBranchReason sh := by
  rcases gitErrorReason_head_or name e with h | h
  · exact str_ne_of_data_get h (sharedBranchReason_get0 sh) (by decide)
  · exact str_ne_of_data_get h (sharedBranchReason_get2 sh) (by decide)

theorem inspect_name (dB : String) (divT staleD : Int) (n p wd : String)
    (data : Except String WorktreeGitData) (now : Nat) :
    (inspectWorktreeBase dB divT staleD n p wd data now).worktreeName = n := by
  cases data with
  | error e => rfl
  | ok d => rfl

theorem attachSharedBranch_branch (base : List TidyCandidate) (cand : TidyCandidate) :
    (attachSharedBranch base cand).branch = cand.branch := by
  unfold attachSharedBranch
  dsimp only
  split
  next h => rfl
  next h => rfl

theorem inspect_err_blockReasons (dB : String) (divT staleD : Int) (n p wd e : String)
    (now : Nat) :
    (inspectWorktreeBase dB divT staleD n p wd (.error e) now).blockReasons
      = [gitErrorReason n e] := rfl

/-- Claim C2: for every inspected worktree, each true block condition —
detached/empty branch, branch equal to the protected default, dirty
worktree, stash entries, the same branch in another surviving worktree,
or a fact-gathering error — contributes its own entry to the candidate's
block-reason list, the entries for distinct conditions are distinct
(accumulation does not stop at the first true condition), and a
non-empty block-reason list makes `deriveClassification` classify the
candidate Blocked with the gray reasons cleared. -/
theorem claim2_block_reason_accumulation (defaultWorktree defaultBranch : String)
    (divT staleD : Int) (wd : String) (now : Nat) (worktrees : List WorktreeInput)
    (k : Nat) (w : WorktreeInput)
    (hk : (worktrees.filter (fun x => x.name ≠ defaultWorktree)).get? k = some w) :
    ∃ cand,
      (collectTidyCandidates defaultWorktree defaultBranch divT staleD wd now
          worktrees).get? k = some cand ∧
      (∀ d, w.data = .ok d →
        ((d.branch = "" ∨ d.branch = "HEAD") → "detached HEAD" ∈ cand.blockReasons) ∧
        (d.branch = defaultBranch →
          "branch is the default (" ++ defaultBranch ++ ")" ∈ cand.blockReasons) ∧
        (d.dirty = true → "worktree has uncommitted changes" ∈ cand.blockReasons) ∧
        (d.hasStash = true → "stash entries reference this branch" ∈ cand.blockReasons)) ∧
      (∀ c' ∈ (worktrees.filter (fun x => x.name ≠ defaultWorktree)).map
            (fun x => inspectWorktreeBase defaultBranch divT staleD x.name x.path wd
              x.data now),
        c'.branch = cand.branch → c'.worktreeName ≠ w.name →
        sharedBranchReason cand.sharedWith ∈ cand.blockReasons) ∧
      (∀ e, w.data = .error e →
        gitErrorReason w.name e ∈ cand.blockReasons ∧
        gitErrorReason w.name e ≠ sharedBranchReason cand.sharedWith ∧
        cand.blockReasons ≠ []) ∧
      ["detached HEAD", "branch is the default (" ++ defaultBranch ++ ")",
        "worktree has uncommitted changes", "stash entries reference this branch",
        sharedBranchReason cand.sharedWith].Nodup ∧
      (cand.blockReasons ≠ [] →
        (deriveClassification cand now).classification = .blocked ∧
        (deriveClassification cand now).grayReasons = []) := by
  have hget : (collectTidyCandidates defaultWorktree defaultBranch divT staleD wd now
      worktrees).get? k = some (attachSharedBranch
        ((worktrees.filter (fun x => x.name ≠ defaultWorktree)).map
          (fun x => inspectWorktreeBase defaultBranch divT staleD x.name x.path wd
            x.data now))
        (inspectWorktreeBase defaultBranch divT staleD w.name w.path wd w.data now)) := by
    unfold collectTidyCandidates
    rw [List.get?_eq_getElem?, List.getElem?_map, List.getElem?_map,
      ← List.get?_eq_getElem?, hk]
    rfl
  set base := (worktrees.filter (fun x => x.name ≠ defaultWorktree)).map
    (fun x => inspectWorktreeBase defaultBranch divT staleD x.name x.path wd x.data now)
    with hbase
  set cand0 := inspectWorktreeBase defaultBranch divT staleD w.name w.path wd w.data now
    with hcand0
  have hbr : (attachSharedBranch base cand0).blockReasons =
      cand0.blockReasons ++
        (if filterOtherWorktrees
            ((base.filter (fun c => c.branch = cand0.branch)).map (·.worktreeName))
            cand0.worktreeName ≠ [] then
          [sharedBranchReason (filterOtherWorktrees
            ((base.filter (fun c => c.branch = cand0.branch)).map (·.worktreeName))
            cand0.worktreeName)] else []) := attachSharedBranch_blockReasons base cand0
  have hsw : (attachSharedBranch base cand0).sharedWith =
      filterOtherWorktrees
        ((base.filter (fun c => c.branch = cand0.branch)).map (·.worktreeName))
        cand0.worktreeName := attachSharedBranch_sharedWith base cand0
  have hc0name : cand0.worktreeName = w.name := by
    rw [hcand0]
    exact inspect_name defaultBranch divT staleD w.name w.path wd w.data now
  refine ⟨attachSharedBranch base cand0, hget, ?_, ?_, ?_, ?_, ?_⟩
  · intro d hd
    have hc0br : cand0.blockReasons =
        (if d.branch = "" ∨ d.branch = "HEAD" then ["detached HEAD"] else [])
        ++ (if d.branch = defaultBranch then
              ["branch is the default (" ++ defaultBranch ++ ")"] else [])
        ++ (if isWithin wd w.path then [blockReasonCurrentWorktree] else [])
        ++ (if d.dirty then ["worktree has uncommitted changes"] else [])
        ++ (if d.hasStash then ["stash entries reference this branch"] else []) := by
      rw [hcand0, hd]
      exact inspect_ok_blockReasons defaultBranch divT staleD w.name w.path wd d now
    refine ⟨?_, ?_, ?_, ?_⟩
    · intro h
      rw [hbr, hc0br]
      simp [h]
    · intro h
      rw [hbr, hc0br]
      simp [h]
    · intro h
      rw [hbr, hc0br]
      simp [h]
    · intro h
      rw [hbr, hc0br]
      simp [h]
  · intro c' hc' hbranch hname
    rw [attachSharedBranch_branch base cand0] at hbranch
    have hmemnames : c'.worktreeName ∈
        ((base.filter (fun c => c.branch = cand0.branch)).map (·.worktreeName)).filter
          (· ≠ cand0.worktreeName) := by
      apply List.mem_filter.2
      constructor
      · exact List.mem_map.2 ⟨c', List.mem_filter.2 ⟨hc', by simp [hbranch]⟩, rfl⟩
      · simp [hname, hc0name]
    have hne : filterOtherWorktrees
        ((base.filter (fun c => c.branch = cand0.branch)).map (·.worktreeName))
        cand0.worktreeName ≠ [] := by
      unfold filterOtherWorktrees
      apply sortStrings_ne_nil
      exact List.ne_nil_of_mem hmemnames
    rw [hsw, hbr]
    rw [if_pos hne]
    simp
  · intro e he
    have hc0br : cand0.blockReasons = [gitErrorReason w.name e] := by
      rw [hcand0, he]
      exact inspect_err_blockReasons defaultBranch divT staleD w.name w.path wd e now
    refine ⟨?_, gitErrorReason_ne_shared w.name e _, ?_⟩
    · rw [hbr, hc0br]
      simp
    · rw [hbr, hc0br]
      simp
  · rw [hsw]
    set sh := filterOtherWorktrees
      ((base.filter (fun c => c.branch = cand0.branch)).map (·.worktreeName))
      cand0.worktreeName
    have n1 : ("detached HEAD" : String)
        ≠ "branch is the default (" ++ defaultBranch ++ ")" :=
      str_ne_of_data_get detachedReason_get0 (defaultBranchReason_get0 defaultBranch)
        (by decide)
    have n2 : ("detached HEAD" : String) ≠ "worktree has uncommitted changes" := by decide
    have n3 : ("detached HEAD" : String) ≠ "stash entries reference this branch" := by decide
    have n4 : ("detached HEAD" : String) ≠ sharedBranchReason sh :=
      str_ne_of_data_get detachedReason_get0 (sharedBranchReason_get0 sh) (by decide)
    have n5 : ("branch is the default (" ++ defaultBranch ++ ")" : String)
        ≠ "worktree has uncommitted changes" :=
      str_ne_of_data_get (defaultBranchReason_get0 defaultBranch) (by rfl) (by decide)
    have n6 : ("branch is the default (" ++ defaultBranch ++ ")" : String)
        ≠ "stash entries reference this branch" :=
      str_ne_of_data_get (defaultBranchReason_get0 defaultBranch) (by rfl) (by decide)
    have n7 : ("branch is the default (" ++ defaultBranch ++ ")" : String)
        ≠ sharedBranchReason sh :=
      str_ne_of_data_get (defaultBranchReason_get7 defaultBranch)
        (sharedBranchReason_get7 sh) (by decide)
    have n8 : ("worktree has uncommitted changes" : String)
        ≠ "stash entries reference this branch" := by decide
    have n9 : ("worktree has uncommitted changes" : String) ≠ sharedBranchReason sh :=
      str_ne_of_data_get (by rfl) (sharedBranchReason_get0 sh) (by decide)
    have n10 : ("stash entries reference this branch" : String) ≠ sharedBranchReason sh :=
      str_ne_of_data_get (by rfl) (sharedBranchReason_get0 sh) (by decide)
    simp [List.nodup_cons, n1, n2, n3, n4, n5, n6, n7, n8, n9, n10]
  · intro hne
    simp [deriveClassification, hne]

/-- Witness for `claim2_block_reason_accumulation`: the dirty and stash
conditions each contribute their entry, and the candidate is Blocked. -/
theorem claim2_block_reason_accumulation_witness :
    "worktree has uncommitted changes" ∈ claim2CandW.blockReasons ∧
    "stash entries reference this branch" ∈ claim2CandW.blockReasons ∧
    (deriveClassification claim2CandW 0).classification = .blocked := by
  obtain ⟨cand, hc, hok, hsh, herr, hnd, hblk⟩ :=
    claim2_block_reason_accumulation "main" "trunk" 20 14 "/wd" 0 claim2Wts 0
      { name := "feat", path := "/p/feat", data := .ok claim2Data } rfl
  have hcw : cand = claim2CandW := by
    have h2 : (collectTidyCandidates "main" "trunk" 20 14 "/wd" 0 claim2Wts).get? 0
        = some claim2CandW := rfl
    rw [hc] at h2
    exact Option.some.inj h2
  subst hcw
  obtain ⟨hdet, hdef, hdirty, hstash⟩ := hok claim2Data rfl
  exact ⟨hdirty rfl, hstash rfl, (hblk (by decide)).1⟩

end Wt
